import Mathlib

/-!
# Verification of the aioppspp PPSPP codec and connector

A shallow embedding of the aioppspp library (RFC 7574 PPSPP endpoint
library): the protocol-options codec (`aioppspp/messages/protocol_options.py`),
the supported-messages compressed bitmap, the datagram/message codecs
(`aioppspp/datagrams.py`, `aioppspp/messages/__init__.py`,
`aioppspp/channel_ids.py`) and the connector/connection state machine
(`aioppspp/connector.py`, `aioppspp/connection.py`).

Byte strings are modelled as `List Nat` (each element a byte value),
Python exceptions as `Except Err` / `Option`, and the byte-offset cursor
of the Python decoders as the remaining suffix of the input (every read in
the source happens at the current offset, so threading `data[offset:]` is
observably identical to threading `(data, offset)`).
-/

deriving instance DecidableEq for Except

namespace Aioppspp

/-- Modelled from the spec: `aioppspp/constants.py` is not part of the
provided sources; per the spec's wire shapes (u8/u16/u32/u64, a 4-byte
channel id) the width constants are 1, 2, 4 and 8 bytes. -/
def BYTE : Nat := 1

/-- Modelled from the spec: 16-bit width (see `BYTE`). -/
def WORD : Nat := 2

/-- Modelled from the spec: 32-bit width (see `BYTE`). -/
def DWORD : Nat := 4

/-- Modelled from the spec: 64-bit width (see `BYTE`). -/
def QWORD : Nat := 8

/-- Wire data: a list of byte values. -/
abbrev Bytes := List Nat

/-- Python `int.to_bytes(len, 'big')`, asssuming the value fits:
most-significant byte first, fixed width. -/
def toBytesBE : Nat → Nat → Bytes
  | 0, _ => []
  | len + 1, n => toBytesBE len (n / 256) ++ [n % 256]

/-- Python `int.to_bytes(len, 'big')` with the `OverflowError` made explicit:
`none` when the value does not fit in `len` bytes. -/
def toBytes? (len n : Nat) : Option Bytes :=
  if n < 256 ^ len then some (toBytesBE len n) else none

/-- Python `int.from_bytes(data, 'big')`. -/
def fromBytesBE (l : Bytes) : Nat :=
  l.foldl (fun acc b => acc * 256 + b) 0

/-- Error kinds raised by the library (spec §7 taxonomy).  Each constructor
corresponds to a concrete raise-site in the source:
`shortRead` to the `ValueError` of `decode_value`, `unknownOption` to the
`ValueError` of `ProtocolOptionsId(...)`, `duplicateOption` to the explicit
`ValueError('duplicate option ...')`, `orderViolation` to the failure of
`decode_live_discard_window` when the chunk-addressing method is absent,
`invalidEnum` to the `ValueError` of an enum call on an unassigned value,
`unknownMessageType` to the `KeyError`/`ValueError` of the message-handler
lookup, `invalidChannelID` to the `ValueError` of `ChannelID.__new__`, and
`typeError` to the `TypeError` of `ProtocolOptions.__new__`. -/
inductive Err where
  | shortRead
  | unknownOption
  | duplicateOption
  | orderViolation
  | invalidEnum
  | unknownMessageType
  | invalidChannelID
  | typeError
  deriving DecidableEq, Repr

/-- `Version` enumeration (`protocol_options.py`): only `rfc7574 = 1` is
assigned. -/
inductive Version where
  | rfc7574
  deriving DecidableEq, Repr

def Version.toNat : Version → Nat
  | .rfc7574 => 1

/-- `Version(n)`: `none` models the `ValueError` on unassigned values. -/
def Version.ofNat? : Nat → Option Version
  | 1 => some .rfc7574
  | _ => none

/-- `ContentIntegrityProtectionMethod` enumeration. -/
inductive CIPM where
  | no_protection
  | merkle_hash_tree
  | sign_all
  | unified_merkle_tree
  deriving DecidableEq, Repr

def CIPM.toNat : CIPM → Nat
  | .no_protection => 0
  | .merkle_hash_tree => 1
  | .sign_all => 2
  | .unified_merkle_tree => 3

def CIPM.ofNat? : Nat → Option CIPM
  | 0 => some .no_protection
  | 1 => some .merkle_hash_tree
  | 2 => some .sign_all
  | 3 => some .unified_merkle_tree
  | _ => none

/-- `MerkleHashTreeFunction` enumeration. -/
inductive MHTF where
  | sha1
  | sha224
  | sha256
  | sha384
  | sha512
  deriving DecidableEq, Repr

def MHTF.toNat : MHTF → Nat
  | .sha1 => 0
  | .sha224 => 1
  | .sha256 => 2
  | .sha384 => 3
  | .sha512 => 4

def MHTF.ofNat? : Nat → Option MHTF
  | 0 => some .sha1
  | 1 => some .sha224
  | 2 => some .sha256
  | 3 => some .sha384
  | 4 => some .sha512
  | _ => none

/-- `LiveSignatureAlgorithm` enumeration.  In the source
`ecdsap256sha256 = 13` and `ecdsap384sha384 = 13` collapse onto the same
value (the second member is a Python enum alias of the first), so the
embedding has a single constructor for 13. -/
inductive LSA where
  | rsamd5
  | dh
  | dsa
  | rsasha1
  | dsa_nsec3_sha1
  | rsasha1_nsec3_sha1
  | rsasha256
  | rsasha512
  | ecc_gost
  | ecdsap256sha256
  | privatedns
  | privateoid
  deriving DecidableEq, Repr

def LSA.toNat : LSA → Nat
  | .rsamd5 => 1
  | .dh => 2
  | .dsa => 3
  | .rsasha1 => 5
  | .dsa_nsec3_sha1 => 6
  | .rsasha1_nsec3_sha1 => 7
  | .rsasha256 => 8
  | .rsasha512 => 10
  | .ecc_gost => 12
  | .ecdsap256sha256 => 13
  | .privatedns => 253
  | .privateoid => 254

def LSA.ofNat? : Nat → Option LSA
  | 1 => some .rsamd5
  | 2 => some .dh
  | 3 => some .dsa
  | 5 => some .rsasha1
  | 6 => some .dsa_nsec3_sha1
  | 7 => some .rsasha1_nsec3_sha1
  | 8 => some .rsasha256
  | 10 => some .rsasha512
  | 12 => some .ecc_gost
  | 13 => some .ecdsap256sha256
  | 253 => some .privatedns
  | 254 => some .privateoid
  | _ => none

/-- `ChunkAddressingMethod` enumeration. -/
inductive CAM where
  | bins32
  | bytes64
  | chunks32
  | bins64
  | chunks64
  deriving DecidableEq, Repr

def CAM.toNat : CAM → Nat
  | .bins32 => 0
  | .bytes64 => 1
  | .chunks32 => 2
  | .bins64 => 3
  | .chunks64 => 4

def CAM.ofNat? : Nat → Option CAM
  | 0 => some .bins32
  | 1 => some .bytes64
  | 2 => some .chunks32
  | 3 => some .bins64
  | 4 => some .chunks64
  | _ => none

/-- `LiveDiscardWindowSize`: the live-discard-window width in bytes, keyed
by the chunk-addressing method's name. -/
def LDWS : CAM → Nat
  | .bins32 => DWORD
  | .bytes64 => QWORD
  | .chunks32 => DWORD
  | .bins64 => QWORD
  | .chunks64 => QWORD

/-- `MessageType` enumeration (`messages/types.py`): the 14 PPSPP message
kinds, in declaration order. -/
inductive MessageType where
  | HANDSHAKE
  | DATA
  | ACK
  | HAVE
  | INTEGRITY
  | PEX_RESv4
  | PEX_REQ
  | SIGNED_INTEGRITY
  | REQUEST
  | CANCEL
  | CHOKE
  | UNCHOKE
  | PEX_RESv6
  | PEX_REScert
  deriving DecidableEq, Repr

def MessageType.toNat : MessageType → Nat
  | .HANDSHAKE => 0
  | .DATA => 1
  | .ACK => 2
  | .HAVE => 3
  | .INTEGRITY => 4
  | .PEX_RESv4 => 5
  | .PEX_REQ => 6
  | .SIGNED_INTEGRITY => 7
  | .REQUEST => 8
  | .CANCEL => 9
  | .CHOKE => 10
  | .UNCHOKE => 11
  | .PEX_RESv6 => 12
  | .PEX_REScert => 13

/-- `MessageType(n)`: `none` models the `ValueError` on unknown tags. -/
def MessageType.ofNat? : Nat → Option MessageType
  | 0 => some .HANDSHAKE
  | 1 => some .DATA
  | 2 => some .ACK
  | 3 => some .HAVE
  | 4 => some .INTEGRITY
  | 5 => some .PEX_RESv4
  | 6 => some .PEX_REQ
  | 7 => some .SIGNED_INTEGRITY
  | 8 => some .REQUEST
  | 9 => some .CANCEL
  | 10 => some .CHOKE
  | 11 => some .UNCHOKE
  | 12 => some .PEX_RESv6
  | 13 => some .PEX_REScert
  | _ => none

/-- `list(MessageType)`: the members in declaration order. -/
def allMessageTypes : List MessageType :=
  [.HANDSHAKE, .DATA, .ACK, .HAVE, .INTEGRITY, .PEX_RESv4, .PEX_REQ,
   .SIGNED_INTEGRITY, .REQUEST, .CANCEL, .CHOKE, .UNCHOKE, .PEX_RESv6,
   .PEX_REScert]

/-- Python `bin(n)[2:]` as a digit list: the binary digits of `n`,
most-significant first, with no leading zeros — except that `bin(0)` gives
the single digit 0.  (`binDigitsAux fuel n` peels digits while `n ≠ 0`;
`fuel = n` always suffices since the bit length of `n` is at most `n`.) -/
def binDigitsAux : Nat → Nat → List Nat
  | 0, _ => []
  | fuel + 1, n => if n = 0 then [] else binDigitsAux fuel (n / 2) ++ [n % 2]

def binDigits (n : Nat) : List Nat :=
  if n = 0 then [0] else binDigitsAux n n

/-- `decode_value(data, offset, length)`: slice `length` bytes at the
cursor, failing with `ShortRead` when fewer remain.  The cursor is the
remaining suffix, so the result pairs the slice with the new suffix. -/
def decode_value (data : Bytes) (length : Nat) : Except Err (Bytes × Bytes) :=
  let value := data.take length
  if value.length = length then .ok (value, data.drop length) else .error .shortRead

/-- Loop body of `decode_supported_messages`: for byte index `n` (of
`message_types_length` bytes total), read one byte, pair the digits of
`bin(value)[2:]` with `list(MessageType)[n*8 : n*8+8]` (Python `zip`
truncates to the shorter sequence), and add the message types paired with a
1 digit. -/
def dsmLoop : Nat → Nat → Bytes → Finset MessageType →
    Except Err (Finset MessageType × Bytes)
  | 0, _, data, acc => .ok (acc, data)
  | count + 1, n, data, acc =>
    match decode_value data BYTE with
    | .error e => .error e
    | .ok (vB, rest) =>
      let value := fromBytesBE vB
      let message_types := (allMessageTypes.drop (n * 8)).take 8
      let mapping := (binDigits value).zip message_types
      let newly := mapping.filterMap fun p => if p.1 ≠ 0 then some p.2 else none
      dsmLoop count (n + 1) rest (acc ∪ newly.toFinset)

/-- `decode_supported_messages`: read a one-byte bitmap length, then decode
that many bitmap bytes (see `dsmLoop`). -/
def decode_supported_messages (data : Bytes) :
    Except Err (Finset MessageType × Bytes) :=
  match decode_value data BYTE with
  | .error e => .error e
  | .ok (lenB, rest) => dsmLoop (fromBytesBE lenB) 0 rest ∅

/-- The packed bitmap integer built by `encode_supported_messages` (named
here so lemmas can refer to the sub-term). -/
def smVal (S : Finset MessageType) : Nat :=
  ((allMessageTypes.map fun msgtype => if msgtype ∈ S then 1 else 0) ++ [0, 0]).foldl
    (fun acc b => acc * 2 + b) 0

/-- `encode_supported_messages`: a 0/1 mask over `list(MessageType)` in
declaration order, zero-padded to a multiple of 8 bits, packed into a
big-endian integer and emitted as `len(mask)/8` bytes preceded by the
byte count.  (The source never trims trailing zero bytes.) -/
def encode_supported_messages (messages : Finset MessageType) : Bytes :=
  let mask := allMessageTypes.map fun msgtype => if msgtype ∈ messages then 1 else 0
  let mask := mask ++ List.replicate
    (if mask.length % 8 = 0 then 0 else 8 - mask.length % 8) 0
  let supported := mask.foldl (fun acc b => acc * 2 + b) 0
  let supported := toBytesBE (mask.length / 8) supported
  toBytesBE BYTE supported.length ++ supported

/-- The `ProtocolOptions` record: ten optional fields, one per option code
0..9.  The same record shape serves as the partially built `options` dict
of the decoder (all fields start at `none`). -/
structure ProtocolOptions where
  version : Option Version := none
  minimum_version : Option Version := none
  swarm_identifier : Option Bytes := none
  content_integrity_protection_method : Option CIPM := none
  merkle_hash_tree_function : Option MHTF := none
  live_signature_algorithm : Option LSA := none
  chunk_addressing_method : Option CAM := none
  live_discard_window : Option Nat := none
  supported_messages : Option (Finset MessageType) := none
  chunk_size : Option Nat := none
  deriving DecidableEq

/-- `decode_version`: one byte, validated against the `Version` enum. -/
def decode_version (data : Bytes) : Except Err (Version × Bytes) :=
  match decode_value data BYTE with
  | .error e => .error e
  | .ok (value, rest) =>
    match Version.ofNat? (value.headD 0) with
    | none => .error .invalidEnum
    | some v => .ok (v, rest)

/-- `encode_version`: `version.value.to_bytes(1, 'big')`. -/
def encode_version (v : Version) : Bytes :=
  toBytesBE BYTE v.toNat

/-- `decode_minimum_version`: same wire shape and domain as `version`. -/
def decode_minimum_version (data : Bytes) : Except Err (Version × Bytes) :=
  decode_version data

/-- `encode_minimum_version`: `version.to_bytes(1, 'big')` (the source
passes the enum member, an int, directly). -/
def encode_minimum_version (v : Version) : Bytes :=
  toBytesBE BYTE v.toNat

/-- `decode_swarm_id`: a 16-bit big-endian length then that many opaque
bytes. -/
def decode_swarm_id (data : Bytes) : Except Err (Bytes × Bytes) :=
  match decode_value data WORD with
  | .error e => .error e
  | .ok (lenB, rest) => decode_value rest (fromBytesBE lenB)

/-- `encode_swarm_id`: 16-bit big-endian length then the bytes; `none`
models the `OverflowError` when the length needs more than two bytes. -/
def encode_swarm_id (swarm_id : Bytes) : Option Bytes :=
  (toBytes? WORD swarm_id.length).map (· ++ swarm_id)

/-- `decode_content_integrity_protection_method`. -/
def decode_content_integrity_protection_method (data : Bytes) : Except Err (CIPM × Bytes) :=
  match decode_value data BYTE with
  | .error e => .error e
  | .ok (value, rest) =>
    match CIPM.ofNat? (value.headD 0) with
    | none => .error .invalidEnum
    | some v => .ok (v, rest)

/-- `encode_content_integrity_protection_method`. -/
def encode_content_integrity_protection_method (v : CIPM) : Bytes :=
  toBytesBE BYTE v.toNat

/-- `decode_merkle_hash_tree_function`. -/
def decode_merkle_hash_tree_function (data : Bytes) : Except Err (MHTF × Bytes) :=
  match decode_value data BYTE with
  | .error e => .error e
  | .ok (value, rest) =>
    match MHTF.ofNat? (value.headD 0) with
    | none => .error .invalidEnum
    | some v => .ok (v, rest)

/-- `encode_merkle_hash_tree_function`. -/
def encode_merkle_hash_tree_function (v : MHTF) : Bytes :=
  toBytesBE BYTE v.toNat

/-- `decode_live_signature_algorithm`. -/
def decode_live_signature_algorithm (data : Bytes) : Except Err (LSA × Bytes) :=
  match decode_value data BYTE with
  | .error e => .error e
  | .ok (value, rest) =>
    match LSA.ofNat? (value.headD 0) with
    | none => .error .invalidEnum
    | some v => .ok (v, rest)

/-- `encode_live_signature_algorithm`. -/
def encode_live_signature_algorithm (v : LSA) : Bytes :=
  toBytesBE BYTE v.toNat

/-- `decode_chunk_addressing_method`. -/
def decode_chunk_addressing_method (data : Bytes) : Except Err (CAM × Bytes) :=
  match decode_value data BYTE with
  | .error e => .error e
  | .ok (value, rest) =>
    match CAM.ofNat? (value.headD 0) with
    | none => .error .invalidEnum
    | some v => .ok (v, rest)

/-- `encode_chunk_addressing_method`. -/
def encode_chunk_addressing_method (v : CAM) : Bytes :=
  toBytesBE BYTE v.toNat

/-- `decode_live_discard_window`: looks up the already-decoded
chunk-addressing method to pick the 4- or 8-byte width; its absence is the
order-violation failure (`options[...].name` on `None` in the source). -/
def decode_live_discard_window (data : Bytes) (options : ProtocolOptions) :
    Except Err (Nat × Bytes) :=
  match options.chunk_addressing_method with
  | none => .error .orderViolation
  | some method =>
    match decode_value data (LDWS method) with
    | .error e => .error e
    | .ok (value, rest) => .ok (fromBytesBE value, rest)

/-- `encode_live_discard_window`: returns the Python `None` (outer `some
none`) when the record has no chunk-addressing method, so the encoder
silently omits the option; `none` models the `OverflowError` of
`to_bytes`. -/
def encode_live_discard_window (ldw : Nat) (options : ProtocolOptions) :
    Option (Option Bytes) :=
  match options.chunk_addressing_method with
  | none => some none
  | some method => (toBytes? (LDWS method) ldw).map some

/-- `decode_chunk_size`: a 32-bit big-endian integer. -/
def decode_chunk_size (data : Bytes) : Except Err (Nat × Bytes) :=
  match decode_value data DWORD with
  | .error e => .error e
  | .ok (value, rest) => .ok (fromBytesBE value, rest)

/-- `encode_chunk_size`: `chunk_size.to_bytes(4, 'big')`. -/
def encode_chunk_size (n : Nat) : Option Bytes :=
  toBytes? DWORD n

/-- Outcome of one iteration of the `protocol_options.decode` while-loop:
either the `end_option` sentinel was reached (`done`) or one option was
decoded and the loop continues (`next`). -/
inductive StepR where
  | done : ProtocolOptions → Bytes → StepR
  | next : ProtocolOptions → Bytes → StepR
  deriving DecidableEq

/-- One iteration of the `protocol_options.decode` loop: read the option
code byte, stop on `end_option` (255), reject unknown codes, reject a code
whose field is already set (`duplicate option`), otherwise dispatch to the
per-code sub-decoder and store the value under the code's field. -/
def decodeStep (data : Bytes) (options : ProtocolOptions) : Except Err StepR :=
  match decode_value data BYTE with
  | .error e => .error e
  | .ok (idB, rest) =>
    let c := idB.headD 0
    if c = 255 then .ok (.done options rest)
    else if c = 0 then
      if options.version ≠ none then .error .duplicateOption else
      match decode_version rest with
      | .error e => .error e
      | .ok (v, rest') => .ok (.next { options with version := some v } rest')
    else if c = 1 then
      if options.minimum_version ≠ none then .error .duplicateOption else
      match decode_minimum_version rest with
      | .error e => .error e
      | .ok (v, rest') => .ok (.next { options with minimum_version := some v } rest')
    else if c = 2 then
      if options.swarm_identifier ≠ none then .error .duplicateOption else
      match decode_swarm_id rest with
      | .error e => .error e
      | .ok (v, rest') => .ok (.next { options with swarm_identifier := some v } rest')
    else if c = 3 then
      if options.content_integrity_protection_method ≠ none then .error .duplicateOption else
      match decode_content_integrity_protection_method rest with
      | .error e => .error e
      | .ok (v, rest') =>
        .ok (.next { options with content_integrity_protection_method := some v } rest')
    else if c = 4 then
      if options.merkle_hash_tree_function ≠ none then .error .duplicateOption else
      match decode_merkle_hash_tree_function rest with
      | .error e => .error e
      | .ok (v, rest') => .ok (.next { options with merkle_hash_tree_function := some v } rest')
    else if c = 5 then
      if options.live_signature_algorithm ≠ none then .error .duplicateOption else
      match decode_live_signature_algorithm rest with
      | .error e => .error e
      | .ok (v, rest') => .ok (.next { options with live_signature_algorithm := some v } rest')
    else if c = 6 then
      if options.chunk_addressing_method ≠ none then .error .duplicateOption else
      match decode_chunk_addressing_method rest with
      | .error e => .error e
      | .ok (v, rest') => .ok (.next { options with chunk_addressing_method := some v } rest')
    else if c = 7 then
      if options.live_discard_window ≠ none then .error .duplicateOption else
      match decode_live_discard_window rest options with
      | .error e => .error e
      | .ok (v, rest') => .ok (.next { options with live_discard_window := some v } rest')
    else if c = 8 then
      if options.supported_messages ≠ none then .error .duplicateOption else
      match decode_supported_messages rest with
      | .error e => .error e
      | .ok (v, rest') => .ok (.next { options with supported_messages := some v } rest')
    else if c = 9 then
      if options.chunk_size ≠ none then .error .duplicateOption else
      match decode_chunk_size rest with
      | .error e => .error e
      | .ok (v, rest') => .ok (.next { options with chunk_size := some v } rest')
    else .error .unknownOption

/-- The `protocol_options.decode` while-loop.  Each iteration consumes at
least the option-code byte, so `data.length + 1` units of fuel always
suffice; the fuel-exhaustion branch is unreachable from `decode`. -/
def decodeLoop : Nat → Bytes → ProtocolOptions → Except Err (ProtocolOptions × Bytes)
  | 0, _, _ => .error .shortRead
  | fuel + 1, data, options =>
    match decodeStep data options with
    | .error e => .error e
    | .ok (.done o rest) => .ok (o, rest)
    | .ok (.next o rest) => decodeLoop fuel rest o

/-- `protocol_options.decode`: run the loop from the all-empty record and
return the built record plus the unconsumed data. -/
def poDecode (data : Bytes) : Except Err (ProtocolOptions × Bytes) :=
  decodeLoop (data.length + 1) data {}

/-- The bytes the encoder contributes for the `version` field: nothing when
the field is `None`, otherwise the code byte then the value bytes. -/
def segVersion (p : ProtocolOptions) : Bytes :=
  match p.version with
  | none => []
  | some v => 0 :: encode_version v

def segMinimumVersion (p : ProtocolOptions) : Bytes :=
  match p.minimum_version with
  | none => []
  | some v => 1 :: encode_minimum_version v

def segSwarmId (p : ProtocolOptions) : Option Bytes :=
  match p.swarm_identifier with
  | none => some []
  | some sid => (encode_swarm_id sid).map (2 :: ·)

def segCipm (p : ProtocolOptions) : Bytes :=
  match p.content_integrity_protection_method with
  | none => []
  | some v => 3 :: encode_content_integrity_protection_method v

def segMhtf (p : ProtocolOptions) : Bytes :=
  match p.merkle_hash_tree_function with
  | none => []
  | some v => 4 :: encode_merkle_hash_tree_function v

def segLsa (p : ProtocolOptions) : Bytes :=
  match p.live_signature_algorithm with
  | none => []
  | some v => 5 :: encode_live_signature_algorithm v

def segCam (p : ProtocolOptions) : Bytes :=
  match p.chunk_addressing_method with
  | none => []
  | some v => 6 :: encode_chunk_addressing_method v

/-- The live-discard-window contribution: skipped both when the field is
`None` and when the handler returns `None` (no chunk-addressing method on
the record); the outer `none` is the handler's `OverflowError`. -/
def segLdw (p : ProtocolOptions) : Option Bytes :=
  match p.live_discard_window with
  | none => some []
  | some ldw =>
    match encode_live_discard_window ldw p with
    | none => none
    | some none => some []
    | some (some bs) => some (7 :: bs)

def segSupportedMessages (p : ProtocolOptions) : Bytes :=
  match p.supported_messages with
  | none => []
  | some s => 8 :: encode_supported_messages s

def segChunkSize (p : ProtocolOptions) : Option Bytes :=
  match p.chunk_size with
  | none => some []
  | some n => (encode_chunk_size n).map (9 :: ·)

/-- `protocol_options.encode`: walk the fields in ascending code order
(`zip(ProtocolOptionsId, options)` pairs codes 0..9 with the record's
fields in declaration order), skip `None` fields and `None` handler
results, emit `code || value` for the rest, and terminate with 255.
`none` models an encoder `OverflowError`. -/
def poEncode (p : ProtocolOptions) : Option Bytes := do
  let s2 ← segSwarmId p
  let s7 ← segLdw p
  let s9 ← segChunkSize p
  some (segVersion p ++ segMinimumVersion p ++ s2 ++ segCipm p ++ segMhtf p ++
    segLsa p ++ segCam p ++ s7 ++ segSupportedMessages p ++ s9 ++ [255])

/-- The raw arguments of `ProtocolOptions.__new__` before validation:
enum-annotated parameters arrive as plain integers (a value already of the
enum type corresponds to its integer value), `int`-annotated and
`bytes`/`set`-annotated parameters arrive at their Lean types (Python's
`isinstance` check against those annotations corresponds to Lean's
typing). -/
structure RawOptions where
  version : Option Nat := none
  minimum_version : Option Nat := none
  swarm_identifier : Option Bytes := none
  content_integrity_protection_method : Option Nat := none
  merkle_hash_tree_function : Option Nat := none
  live_signature_algorithm : Option Nat := none
  chunk_addressing_method : Option Nat := none
  live_discard_window : Option Nat := none
  supported_messages : Option (Finset MessageType) := none
  chunk_size : Option Nat := none
  deriving DecidableEq

/-- Per-parameter validation of `ProtocolOptions.__new__`: `None` is kept,
an assigned enum value is coerced to the enum member, anything else raises
`TypeError` (the enum call's `ValueError` is caught and re-raised as
`TypeError`). -/
def coerceEnum {α : Type} (ofNat? : Nat → Option α) :
    Option Nat → Except Err (Option α)
  | none => .ok none
  | some n =>
    match ofNat? n with
    | some v => .ok (some v)
    | none => .error .typeError

/-- `ProtocolOptions.__new__`: validate every non-`None` argument against
its annotation and build the record. -/
def ProtocolOptions.mk? (r : RawOptions) : Except Err ProtocolOptions := do
  let v ← coerceEnum Version.ofNat? r.version
  let mv ← coerceEnum Version.ofNat? r.minimum_version
  let cipm ← coerceEnum CIPM.ofNat? r.content_integrity_protection_method
  let mhtf ← coerceEnum MHTF.ofNat? r.merkle_hash_tree_function
  let lsa ← coerceEnum LSA.ofNat? r.live_signature_algorithm
  let cam ← coerceEnum CAM.ofNat? r.chunk_addressing_method
  .ok { version := v, minimum_version := mv,
        swarm_identifier := r.swarm_identifier,
        content_integrity_protection_method := cipm,
        merkle_hash_tree_function := mhtf,
        live_signature_algorithm := lsa,
        chunk_addressing_method := cam,
        live_discard_window := r.live_discard_window,
        supported_messages := r.supported_messages,
        chunk_size := r.chunk_size }

/-- `ChannelID`: a 4-byte identifier (`channel_ids.py`).  The length
invariant is enforced by `ChannelID.new?`, mirroring `ChannelID.__new__`. -/
structure ChannelID where
  data : Bytes
  deriving DecidableEq

/-- `ChannelID.__new__`: fails unless the input is exactly `DWORD` bytes. -/
def ChannelID.new? (data : Bytes) : Except Err ChannelID :=
  if data.length = DWORD then .ok ⟨data⟩ else .error .invalidChannelID

/-- `channel_ids.decode`: split off the first 4 bytes (validated by the
`ChannelID` constructor) and return the remainder. -/
def cidDecode (data : Bytes) : Except Err (ChannelID × Bytes) :=
  match ChannelID.new? (data.take DWORD) with
  | .error e => .error e
  | .ok cid => .ok (cid, data.drop DWORD)

/-- `channel_ids.encode`: re-validate through the constructor and return
the 4 bytes. -/
def cidEncode (cid : ChannelID) : Except Err Bytes :=
  (ChannelID.new? cid.data).map (·.data)

/-- HANDSHAKE message payload (`messages/handshake.py`): a source channel
id plus protocol options (the `type` field is fixed to HANDSHAKE by the
constructor). -/
structure Handshake where
  source_channel_id : ChannelID
  protocol_options : ProtocolOptions
  deriving DecidableEq

/-- A PPSPP `Message`.  HANDSHAKE is the only concrete message class in
the source. -/
inductive Message where
  | handshake : Handshake → Message
  deriving DecidableEq

def Message.type : Message → MessageType
  | .handshake _ => .HANDSHAKE

/-- A message-handler table, keyed by message type; `none` models a key
missing from the dict. -/
def DecodeHandlers := MessageType → Option (Bytes → Except Err (Message × Bytes))

def EncodeHandlers := MessageType → Option (Message → Except Err Bytes)

/-- `decode_message_handlers()`: the default decode table is empty. -/
def decode_message_handlers : DecodeHandlers := fun _ => none

/-- `encode_message_handlers()`: the default encode table is empty. -/
def encode_message_handlers : EncodeHandlers := fun _ => none

/-- `decode_message`: read the tag byte (`ValueError` on unknown tags) and
delegate to the handler (`KeyError` when the table has no entry); both
failures are the UnknownMessageType kind. -/
def decode_message (handlers : DecodeHandlers) (data : Bytes) :
    Except Err (Message × Bytes) :=
  match data with
  | [] => .error .shortRead
  | b :: rest =>
    match MessageType.ofNat? b with
    | none => .error .unknownMessageType
    | some t =>
      match handlers t with
      | none => .error .unknownMessageType
      | some h => h rest

/-- The `messages.decode` while-loop: decode messages until the buffer is
empty.  Each message consumes at least its tag byte, so `data.length + 1`
units of fuel always suffice for handlers that do not grow their input. -/
def messagesDecodeLoop (handlers : DecodeHandlers) :
    Nat → Bytes → List Message → Except Err (List Message)
  | 0, _, _ => .error .shortRead
  | _, [], msgs => .ok msgs.reverse
  | fuel + 1, data, msgs =>
    match decode_message handlers data with
    | .error e => .error e
    | .ok (m, rest) => messagesDecodeLoop handlers fuel rest (msgs ++ [m])

/-- `messages.decode` with the given handler table (`None` in the source
selects the default empty table). -/
def messagesDecode (handlers : DecodeHandlers) (data : Bytes) :
    Except Err (List Message) :=
  messagesDecodeLoop handlers (data.length + 1) data []

/-- `encode_message`: the tag byte then the handler's payload bytes. -/
def encode_message (handlers : EncodeHandlers) (m : Message) : Except Err Bytes :=
  match handlers m.type with
  | none => .error .unknownMessageType
  | some h => (h m).map (m.type.toNat :: ·)

/-- `messages.encode`: concatenate the encodings in order. -/
def messagesEncode (handlers : EncodeHandlers) : List Message → Except Err Bytes
  | [] => .ok []
  | m :: rest => do
    let bs ← encode_message handlers m
    let bss ← messagesEncode handlers rest
    .ok (bs ++ bss)

/-- A `Datagram` (`datagrams.py`): a channel id plus an ordered message
sequence. -/
structure Datagram where
  channel_id : ChannelID
  messages : List Message
  deriving DecidableEq

/-- `datagrams.decode`, using the library's default message-handler
tables: first 4 bytes are the channel id, the rest is the message
sequence. -/
def datagramDecode (data : Bytes) : Except Err Datagram := do
  let (cid, rest) ← cidDecode data
  let msgs ← messagesDecode decode_message_handlers rest
  .ok ⟨cid, msgs⟩

/-- `datagrams.encode`, using the library's default message-handler
tables: channel-id bytes followed by the message-sequence encoding. -/
def datagramEncode (d : Datagram) : Except Err Bytes := do
  let cb ← cidEncode d.channel_id
  let mb ← messagesEncode encode_message_handlers d.messages
  .ok (cb ++ mb)

/-! ## Connector state machine (`connector.py`, `connection.py`)

Pool keys are modelled as `Nat` (standing for the `Address` used to obtain
the endpoint), endpoints and connections by numeric identities.  Python
dicts become association lists; `aset` mirrors dict assignment (replace or
append) and `aerase` mirrors `del`. -/

/-- Association-list lookup (`dict.get`). -/
def alookup {α : Type} (l : List (Nat × α)) (k : Nat) : Option α :=
  (l.find? fun kv => kv.1 == k).map (·.2)

/-- Association-list assignment (`d[k] = v`). -/
def aset {α : Type} : List (Nat × α) → Nat → α → List (Nat × α)
  | [], k, v => [(k, v)]
  | kv :: rest, k, v =>
    if kv.1 = k then (k, v) :: rest else kv :: aset rest k v

/-- Association-list deletion (`del d[k]`). -/
def aerase {α : Type} : List (Nat × α) → Nat → List (Nat × α)
  | [], _ => []
  | kv :: rest, k => if kv.1 = k then rest else kv :: aerase rest k

/-- A `Connection` object's state: its pool key and its `_protocol`
reference (an endpoint identity, `none` after the façade clears it). -/
structure ConnRec where
  key : Nat
  protocol : Option Nat
  deriving DecidableEq

/-- The connector runtime state.  `pool` maps a key to its endpoint stack
(top at the end of the list, matching `list.append`/`list.pop`);
`acquired` maps a key to the identities of the connections acquired under
it; `conns` holds each minted connection's record; `endpoints` records
whether each endpoint's transport is attached (`BaseProtocol.closed` is
its negation); `loopClosed` is the state of the event loop the connector
was given; `nextEndpoint`/`nextConn` mint fresh identities
(`create_endpoint` is abstract in the source — creating an endpoint is
modelled as minting a fresh attached one). -/
structure ConnectorState where
  closed : Bool
  loopClosed : Bool
  pool : List (Nat × List (Option Nat))
  acquired : List (Nat × List Nat)
  conns : List (Nat × ConnRec)
  endpoints : List (Nat × Bool)
  nextEndpoint : Nat
  nextConn : Nat
  deriving DecidableEq

def connKey (s : ConnectorState) (cid : Nat) : Option Nat :=
  (alookup s.conns cid).map (·.key)

def connProtocol (s : ConnectorState) (cid : Nat) : Option Nat :=
  (alookup s.conns cid).bind (·.protocol)

/-- `BaseProtocol.closed`: no transport attached. -/
def attachedIn (es : List (Nat × Bool)) (e : Nat) : Bool :=
  (alookup es e).getD false

/-- `Connection.closed`: `self._protocol is None or self._protocol.closed`. -/
def connClosed (s : ConnectorState) (cid : Nat) : Bool :=
  match alookup s.conns cid with
  | none => true
  | some c =>
    match c.protocol with
    | none => true
    | some e => !(attachedIn s.endpoints e)

/-- `self._acquired[key].remove(connection)` with the `KeyError`
tolerated (`defaultdict` materialises an empty set for a missing key). -/
def removeAcquired (acq : List (Nat × List Nat)) (k cid : Nat) :
    List (Nat × List Nat) :=
  aset acq k (((alookup acq k).getD []).erase cid)

/-- `BaseConnector.close_connection`: no-op on a closed connector;
otherwise drop the connection from `acquired[key]` and close its
endpoint's transport. -/
def close_connection (s : ConnectorState) (cid : Nat) : ConnectorState :=
  if s.closed then s
  else
    match alookup s.conns cid with
    | none => s
    | some c =>
      let s := { s with acquired := removeAcquired s.acquired c.key cid }
      match c.protocol with
      | none => s
      | some e => { s with endpoints := aset s.endpoints e false }

/-- `Connection.close`: no-op when already closed; otherwise delegate to
the connector and clear `_protocol`. -/
def connectionClose (s : ConnectorState) (cid : Nat) : ConnectorState :=
  if connClosed s cid then s
  else
    let s' := close_connection s cid
    match alookup s'.conns cid with
    | none => s'
    | some c => { s' with conns := aset s'.conns cid ⟨c.key, none⟩ }

/-- `BaseConnector.release_connection`: no-op on a closed connector;
otherwise drop the connection from `acquired[key]` and push its endpoint
onto `pool[key]` (creating the entry when missing). -/
def release_connection (s : ConnectorState) (cid : Nat) : ConnectorState :=
  if s.closed then s
  else
    match alookup s.conns cid with
    | none => s
    | some c =>
      let acq := removeAcquired s.acquired c.key cid
      let stack := (alookup s.pool c.key).getD []
      { s with acquired := acq, pool := aset s.pool c.key (stack ++ [c.protocol]) }

/-- `BaseConnector._get_connection`: pop the most recently pushed endpoint
from `pool[key]` (erasing the entry once the stack empties) and wrap it in
a fresh connection; `none` when the pool has nothing for the key. -/
def getConnection (s : ConnectorState) (k : Nat) :
    Option (Nat × ConnectorState) :=
  match alookup s.pool k with
  | none => none
  | some ps =>
    match ps.getLast? with
    | none => none
    | some po =>
      let rest := ps.dropLast
      let pool' := if rest.isEmpty then aerase s.pool k else aset s.pool k rest
      let cid := s.nextConn
      some (cid, { s with pool := pool',
                          conns := aset s.conns cid ⟨k, po⟩,
                          nextConn := s.nextConn + 1 })

/-- `self._acquired[key].add(connection)`. -/
def addAcquired (s : ConnectorState) (k cid : Nat) : ConnectorState :=
  { s with acquired := aset s.acquired k (((alookup s.acquired k).getD []) ++ [cid]) }

/-- `BaseConnector._connect` (the body shared by `connect` and `listen`):
reuse a pooled endpoint when one exists, otherwise create a fresh one;
record the connection as acquired and return it. -/
def connect (s : ConnectorState) (k : Nat) : Nat × ConnectorState :=
  match getConnection s k with
  | some (cid, s') => (cid, addAcquired s' k cid)
  | none =>
    let e := s.nextEndpoint
    let s1 := { s with endpoints := aset s.endpoints e true, nextEndpoint := e + 1 }
    let cid := s1.nextConn
    let s2 := { s1 with conns := aset s1.conns cid ⟨k, some e⟩, nextConn := cid + 1 }
    (cid, addAcquired s2 k cid)

/-- `BaseConnector.close`: no-op when already closed.  When the event loop
is already closed the `return` inside the `try` still runs the `finally`,
so the maps are cleared and the connector marked closed without touching
any endpoint.  Otherwise every pooled endpoint is closed, then every
acquired connection (iterating over a snapshot), and the `finally` clears
both maps and marks the connector closed. -/
def connectorClose (s : ConnectorState) : ConnectorState :=
  if s.closed then s
  else if s.loopClosed then { s with pool := [], acquired := [], closed := true }
  else
    let pooled := s.pool.foldl (fun acc kv => acc ++ kv.2) []
    let s1 := pooled.foldl (fun t po =>
      match po with
      | none => t
      | some e => { t with endpoints := aset t.endpoints e false }) s
    let cids := s.acquired.foldl (fun acc kv => acc ++ kv.2) []
    let s2 := cids.foldl connectionClose s1
    { s2 with pool := [], acquired := [], closed := true }

/-! ## Lemmas: byte primitives -/

@[simp] theorem length_toBytesBE (len n : Nat) : (toBytesBE len n).length = len := by
  induction len generalizing n with
  | zero => rfl
  | succ k ih => simp [toBytesBE, ih]

theorem fromBytesBE_append_byte (l : Bytes) (b : Nat) :
    fromBytesBE (l ++ [b]) = fromBytesBE l * 256 + b := by
  simp [fromBytesBE]

theorem fromBytesBE_toBytesBE (len n : Nat) (h : n < 256 ^ len) :
    fromBytesBE (toBytesBE len n) = n := by
  induction len generalizing n with
  | zero =>
      interval_cases n
      rfl
  | succ k ih =>
      have hdiv : n / 256 < 256 ^ k := by
        rw [Nat.div_lt_iff_lt_mul (by norm_num)]
        calc n < 256 ^ (k + 1) := h
        _ = 256 ^ k * 256 := by ring
      have := ih (n / 256) hdiv
      simp [toBytesBE, fromBytesBE_append_byte, this]
      omega

@[simp] theorem version_ofNat_roundtrip (v : Version) : Version.ofNat? v.toNat = some v := by
  cases v
  rfl

@[simp] theorem cipm_ofNat_roundtrip (v : CIPM) : CIPM.ofNat? v.toNat = some v := by
  cases v <;> rfl

@[simp] theorem mhtf_ofNat_roundtrip (v : MHTF) : MHTF.ofNat? v.toNat = some v := by
  cases v <;> rfl

@[simp] theorem lsa_ofNat_roundtrip (v : LSA) : LSA.ofNat? v.toNat = some v := by
  cases v <;> rfl

@[simp] theorem cam_ofNat_roundtrip (v : CAM) : CAM.ofNat? v.toNat = some v := by
  cases v <;> rfl

@[simp] theorem version_toNat_lt (v : Version) : v.toNat < 256 := by cases v <;> decide

@[simp] theorem cipm_toNat_lt (v : CIPM) : v.toNat < 256 := by cases v <;> decide

@[simp] theorem mhtf_toNat_lt (v : MHTF) : v.toNat < 256 := by cases v <;> decide

@[simp] theorem lsa_toNat_lt (v : LSA) : v.toNat < 256 := by cases v <;> decide

@[simp] theorem cam_toNat_lt (v : CAM) : v.toNat < 256 := by cases v <;> decide

@[simp] theorem decode_value_exact (pre post : Bytes) (h : pre.length = n) :
    decode_value (pre ++ post) n = .ok (pre, post) := by
  subst h
  simp [decode_value, List.take_left, List.drop_left]

@[simp] theorem decode_value_cons (b : Nat) (rest : Bytes) :
    decode_value (b :: rest) BYTE = .ok ([b], rest) := by
  simpa using decode_value_exact [b] rest rfl

theorem decode_value_toBytesBE (len n : Nat) (tail : Bytes) :
    decode_value (toBytesBE len n ++ tail) len = .ok (toBytesBE len n, tail) :=
  decode_value_exact _ _ (length_toBytesBE len n)

/-! ## Lemmas: sub-decoders consume exactly their sub-encodings -/

theorem encode_version_eq (v : Version) : encode_version v = [v.toNat] := by
  simp [encode_version, BYTE, toBytesBE, Nat.mod_eq_of_lt (version_toNat_lt v)]

theorem decode_version_encode (v : Version) (tail : Bytes) :
    decode_version (encode_version v ++ tail) = .ok (v, tail) := by
  rw [encode_version_eq]
  simp [decode_version]

theorem encode_content_integrity_protection_method_eq (v : CIPM) : encode_content_integrity_protection_method v = [v.toNat] := by
  simp [encode_content_integrity_protection_method, BYTE, toBytesBE, Nat.mod_eq_of_lt (cipm_toNat_lt v)]

theorem decode_content_integrity_protection_method_encode (v : CIPM) (tail : Bytes) :
    decode_content_integrity_protection_method (encode_content_integrity_protection_method v ++ tail) = .ok (v, tail) := by
  rw [encode_content_integrity_protection_method_eq]
  simp [decode_content_integrity_protection_method]

theorem encode_merkle_hash_tree_function_eq (v : MHTF) : encode_merkle_hash_tree_function v = [v.toNat] := by
  simp [encode_merkle_hash_tree_function, BYTE, toBytesBE, Nat.mod_eq_of_lt (mhtf_toNat_lt v)]

theorem decode_merkle_hash_tree_function_encode (v : MHTF) (tail : Bytes) :
    decode_merkle_hash_tree_function (encode_merkle_hash_tree_function v ++ tail) = .ok (v, tail) := by
  rw [encode_merkle_hash_tree_function_eq]
  simp [decode_merkle_hash_tree_function]

theorem encode_live_signature_algorithm_eq (v : LSA) : encode_live_signature_algorithm v = [v.toNat] := by
  simp [encode_live_signature_algorithm, BYTE, toBytesBE, Nat.mod_eq_of_lt (lsa_toNat_lt v)]

theorem decode_live_signature_algorithm_encode (v : LSA) (tail : Bytes) :
    decode_live_signature_algorithm (encode_live_signature_algorithm v ++ tail) = .ok (v, tail) := by
  rw [encode_live_signature_algorithm_eq]
  simp [decode_live_signature_algorithm]

theorem encode_chunk_addressing_method_eq (v : CAM) : encode_chunk_addressing_method v = [v.toNat] := by
  simp [encode_chunk_addressing_method, BYTE, toBytesBE, Nat.mod_eq_of_lt (cam_toNat_lt v)]

theorem decode_chunk_addressing_method_encode (v : CAM) (tail : Bytes) :
    decode_chunk_addressing_method (encode_chunk_addressing_method v ++ tail) = .ok (v, tail) := by
  rw [encode_chunk_addressing_method_eq]
  simp [decode_chunk_addressing_method]

theorem decode_swarm_id_encode (sid : Bytes) (tail : Bytes) (enc : Bytes)
    (h : encode_swarm_id sid = some enc) :
    decode_swarm_id (enc ++ tail) = .ok (sid, tail) := by
  rcases Option.map_eq_some.mp h with ⟨lenB, hlen, henc⟩
  rw [toBytes?] at hlen
  by_cases hlt : sid.length < 256 ^ WORD
  · rw [if_pos hlt] at hlen
    cases hlen
    subst henc
    rw [List.append_assoc]
    simp [decode_swarm_id, decode_value_toBytesBE,
      fromBytesBE_toBytesBE WORD sid.length hlt]
  · rw [if_neg hlt] at hlen
    cases hlen

theorem decode_ldw_encode (opts : ProtocolOptions) (cam : CAM) (w : Nat) (tail : Bytes)
    (hcam : opts.chunk_addressing_method = some cam) (hlt : w < 256 ^ LDWS cam) :
    decode_live_discard_window (toBytesBE (LDWS cam) w ++ tail) opts = .ok (w, tail) := by
  simp [decode_live_discard_window, hcam, decode_value_toBytesBE,
    fromBytesBE_toBytesBE _ w hlt]

theorem decode_chunk_size_encode (n : Nat) (tail : Bytes) (enc : Bytes)
    (h : encode_chunk_size n = some enc) :
    decode_chunk_size (enc ++ tail) = .ok (n, tail) := by
  rw [encode_chunk_size, toBytes?] at h
  by_cases hlt : n < 256 ^ DWORD
  · rw [if_pos hlt] at h
    cases h
    simp [decode_chunk_size, decode_value_toBytesBE, fromBytesBE_toBytesBE DWORD n hlt]
  · rw [if_neg hlt] at h
    cases h

theorem encode_supported_messages_shape (S : Finset MessageType) :
    encode_supported_messages S =
      [2, smVal S / 256 % 256, smVal S % 256] := by
  simp [encode_supported_messages, smVal, toBytesBE, List.replicate, BYTE]

theorem decode_supported_messages_encode (S : Finset MessageType) (tail : Bytes) :
    ∃ st, decode_supported_messages (encode_supported_messages S ++ tail) = .ok (st, tail) := by
  rw [encode_supported_messages_shape]
  refine ⟨?_, ?_⟩
  rotate_left
  exact rfl

/-! ## Lemmas: the protocol-options decode loop -/

theorem decodeLoop_fuel_mono (fuel fuel' : Nat) (data : Bytes) (opts : ProtocolOptions)
    (r : ProtocolOptions × Bytes) (h : decodeLoop fuel data opts = .ok r)
    (hle : fuel ≤ fuel') : decodeLoop fuel' data opts = .ok r := by
  induction fuel generalizing fuel' data opts with
  | zero => simp [decodeLoop] at h
  | succ f ih =>
      match fuel', hle with
      | f' + 1, hle =>
        rw [decodeLoop] at h ⊢
        cases hstep : decodeStep data opts with
        | error e => rw [hstep] at h; exact h
        | ok sr =>
            rw [hstep] at h
            cases sr with
            | done o rest => exact h
            | next o rest => exact ih _ rest o h (Nat.succ_le_succ_iff.mp hle)

theorem decodeLoop_cons_next (data rest : Bytes) (opts o : ProtocolOptions)
    (fuel : Nat) (r : ProtocolOptions × Bytes)
    (hstep : decodeStep data opts = .ok (.next o rest))
    (h : decodeLoop fuel rest o = .ok r) :
    decodeLoop (fuel + 1) data opts = .ok r := by
  rw [decodeLoop, hstep]
  exact h

theorem decodeLoop_end (s : Bytes) (opts : ProtocolOptions) :
    decodeLoop 1 (255 :: s) opts = .ok (opts, s) := by
  rw [decodeLoop]
  simp [decodeStep]

theorem decodeStep_field0 (opts : ProtocolOptions) (v : Version) (tail : Bytes)
    (h : opts.version = none) :
    decodeStep (0 :: (encode_version v ++ tail)) opts =
      .ok (.next { opts with version := some v } tail) := by
  simp [decodeStep, h, decode_version_encode]

theorem decodeStep_field1 (opts : ProtocolOptions) (v : Version) (tail : Bytes)
    (h : opts.minimum_version = none) :
    decodeStep (1 :: (encode_minimum_version v ++ tail)) opts =
      .ok (.next { opts with minimum_version := some v } tail) := by
  have he : encode_minimum_version v = encode_version v := rfl
  simp [decodeStep, h, decode_minimum_version, he, decode_version_encode]

theorem decodeStep_field2 (opts : ProtocolOptions) (sid enc tail : Bytes)
    (h : opts.swarm_identifier = none) (henc : encode_swarm_id sid = some enc) :
    decodeStep (2 :: (enc ++ tail)) opts =
      .ok (.next { opts with swarm_identifier := some sid } tail) := by
  simp [decodeStep, h, decode_swarm_id_encode sid tail enc henc]

theorem decodeStep_field3 (opts : ProtocolOptions) (v : CIPM) (tail : Bytes)
    (h : opts.content_integrity_protection_method = none) :
    decodeStep (3 :: (encode_content_integrity_protection_method v ++ tail)) opts =
      .ok (.next { opts with content_integrity_protection_method := some v } tail) := by
  simp [decodeStep, h, decode_content_integrity_protection_method_encode]

theorem decodeStep_field4 (opts : ProtocolOptions) (v : MHTF) (tail : Bytes)
    (h : opts.merkle_hash_tree_function = none) :
    decodeStep (4 :: (encode_merkle_hash_tree_function v ++ tail)) opts =
      .ok (.next { opts with merkle_hash_tree_function := some v } tail) := by
  simp [decodeStep, h, decode_merkle_hash_tree_function_encode]

theorem decodeStep_field5 (opts : ProtocolOptions) (v : LSA) (tail : Bytes)
    (h : opts.live_signature_algorithm = none) :
    decodeStep (5 :: (encode_live_signature_algorithm v ++ tail)) opts =
      .ok (.next { opts with live_signature_algorithm := some v } tail) := by
  simp [decodeStep, h, decode_live_signature_algorithm_encode]

theorem decodeStep_field6 (opts : ProtocolOptions) (v : CAM) (tail : Bytes)
    (h : opts.chunk_addressing_method = none) :
    decodeStep (6 :: (encode_chunk_addressing_method v ++ tail)) opts =
      .ok (.next { opts with chunk_addressing_method := some v } tail) := by
  simp [decodeStep, h, decode_chunk_addressing_method_encode]

theorem decodeStep_field7 (opts : ProtocolOptions) (cam : CAM) (w : Nat) (tail : Bytes)
    (h : opts.live_discard_window = none)
    (hcam : opts.chunk_addressing_method = some cam) (hlt : w < 256 ^ LDWS cam) :
    decodeStep (7 :: (toBytesBE (LDWS cam) w ++ tail)) opts =
      .ok (.next { opts with live_discard_window := some w } tail) := by
  simp [decodeStep, h, decode_ldw_encode opts cam w tail hcam hlt]

theorem decodeStep_field8 (opts : ProtocolOptions) (S : Finset MessageType) (tail : Bytes)
    (h : opts.supported_messages = none) :
    ∃ st, decodeStep (8 :: (encode_supported_messages S ++ tail)) opts =
      .ok (.next { opts with supported_messages := some st } tail) := by
  obtain ⟨st, hd⟩ := decode_supported_messages_encode S tail
  exact ⟨st, by simp [decodeStep, h, hd]⟩

theorem decodeStep_field9 (opts : ProtocolOptions) (n : Nat) (enc tail : Bytes)
    (h : opts.chunk_size = none) (henc : encode_chunk_size n = some enc) :
    decodeStep (9 :: (enc ++ tail)) opts =
      .ok (.next { opts with chunk_size := some n } tail) := by
  simp [decodeStep, h, decode_chunk_size_encode n tail enc henc]

/-! ## Lemmas: the decoder walks an encoded record segment by segment

`chainK` states that, from any accumulator whose fields for codes `K..9`
are still unset (and whose chunk-addressing method agrees with the encoded
record's where relevant), the loop decodes the remaining encoded segments
and stops exactly at the terminator, leaving the appended suffix `s`
untouched.  The fuel bound tracks that each emitted option costs one
iteration and contributes at least one byte. -/

theorem chain9 (p : ProtocolOptions) (s s9 : Bytes) (hs9 : segChunkSize p = some s9)
    (acc : ProtocolOptions) (hcs : acc.chunk_size = none) :
    ∃ fuel q, decodeLoop fuel (s9 ++ 255 :: s) acc = .ok (q, s) ∧
      fuel ≤ s9.length + 1 := by
  cases hp : p.chunk_size with
  | none =>
      simp only [segChunkSize, hp] at hs9
      cases hs9
      exact ⟨1, acc, decodeLoop_end s acc, by simp⟩
  | some n =>
      simp only [segChunkSize, hp] at hs9
      rcases Option.map_eq_some.mp hs9 with ⟨enc, henc, hs⟩
      subst hs
      refine ⟨2, { acc with chunk_size := some n }, ?_, by simp⟩
      have hcons : (9 :: enc) ++ 255 :: s = 9 :: (enc ++ 255 :: s) := rfl
      rw [hcons]
      exact decodeLoop_cons_next _ _ _ _ 1 _
        (decodeStep_field9 acc n enc (255 :: s) hcs henc) (decodeLoop_end s _)

theorem chain8 (p : ProtocolOptions) (s s9 : Bytes) (hs9 : segChunkSize p = some s9)
    (acc : ProtocolOptions) (hsm : acc.supported_messages = none)
    (hcs : acc.chunk_size = none) :
    ∃ fuel q,
      decodeLoop fuel (segSupportedMessages p ++ (s9 ++ 255 :: s)) acc = .ok (q, s) ∧
      fuel ≤ (segSupportedMessages p).length + (s9.length + 1) := by
  cases hp : p.supported_messages with
  | none =>
      obtain ⟨fuel, q, hloop, hle⟩ := chain9 p s s9 hs9 acc hcs
      refine ⟨fuel, q, ?_, ?_⟩
      · simpa [segSupportedMessages, hp] using hloop
      · simp only [segSupportedMessages, hp]
        simpa using hle
  | some S =>
      obtain ⟨st, hstep⟩ := decodeStep_field8 acc S (s9 ++ 255 :: s) hsm
      obtain ⟨fuel, q, hloop, hle⟩ :=
        chain9 p s s9 hs9 { acc with supported_messages := some st } hcs
      refine ⟨fuel + 1, q, ?_, ?_⟩
      · have hsh : segSupportedMessages p ++ (s9 ++ 255 :: s) =
            8 :: (encode_supported_messages S ++ (s9 ++ 255 :: s)) := by
          simp [segSupportedMessages, hp]
        rw [hsh]
        exact decodeLoop_cons_next _ _ _ _ fuel _ hstep hloop
      · simp only [segSupportedMessages, hp, List.length_cons]
        omega

theorem chain7 (p : ProtocolOptions) (s s9 : Bytes) (hs9 : segChunkSize p = some s9)
    (s7 : Bytes) (hs7 : segLdw p = some s7)
    (acc : ProtocolOptions) (hldw : acc.live_discard_window = none)
    (hsm : acc.supported_messages = none) (hcs : acc.chunk_size = none)
    (hcamAcc : acc.chunk_addressing_method = p.chunk_addressing_method) :
    ∃ fuel q,
      decodeLoop fuel (s7 ++ (segSupportedMessages p ++ (s9 ++ 255 :: s))) acc = .ok (q, s) ∧
      fuel ≤ s7.length + ((segSupportedMessages p).length + (s9.length + 1)) := by
  cases hp : p.live_discard_window with
  | none =>
      simp only [segLdw, hp] at hs7
      cases hs7
      obtain ⟨fuel, q, hloop, hle⟩ := chain8 p s s9 hs9 acc hsm hcs
      exact ⟨fuel, q, by simpa using hloop, by simpa using hle⟩
  | some w =>
      cases hpc : p.chunk_addressing_method with
      | none =>
          simp only [segLdw, hp, encode_live_discard_window, hpc] at hs7
          cases hs7
          obtain ⟨fuel, q, hloop, hle⟩ := chain8 p s s9 hs9 acc hsm hcs
          exact ⟨fuel, q, by simpa using hloop, by simpa using hle⟩
      | some cam =>
          simp only [segLdw, hp, encode_live_discard_window, hpc] at hs7
          rw [toBytes?] at hs7
          by_cases hlt : w < 256 ^ LDWS cam
          · rw [if_pos hlt] at hs7
            simp only [Option.map_some'] at hs7
            cases hs7
            have hcam' : acc.chunk_addressing_method = some cam := by
              rw [hcamAcc, hpc]
            obtain ⟨fuel, q, hloop, hle⟩ :=
              chain8 p s s9 hs9 { acc with live_discard_window := some w } hsm hcs
            refine ⟨fuel + 1, q, ?_, ?_⟩
            · have hsh : (7 :: toBytesBE (LDWS cam) w) ++
                  (segSupportedMessages p ++ (s9 ++ 255 :: s)) =
                  7 :: (toBytesBE (LDWS cam) w ++
                    (segSupportedMessages p ++ (s9 ++ 255 :: s))) := rfl
              rw [hsh]
              exact decodeLoop_cons_next _ _ _ _ fuel _
                (decodeStep_field7 acc cam w _ hldw hcam' hlt) hloop
            · simp only [List.length_cons]
              omega
          · rw [if_neg hlt] at hs7
            simp at hs7

theorem chain6 (p : ProtocolOptions) (s s9 : Bytes) (hs9 : segChunkSize p = some s9)
    (s7 : Bytes) (hs7 : segLdw p = some s7)
    (acc : ProtocolOptions) (hcam : acc.chunk_addressing_method = none)
    (hldw : acc.live_discard_window = none)
    (hsm : acc.supported_messages = none) (hcs : acc.chunk_size = none) :
    ∃ fuel q,
      decodeLoop fuel
        (segCam p ++ (s7 ++ (segSupportedMessages p ++ (s9 ++ 255 :: s)))) acc = .ok (q, s) ∧
      fuel ≤ (segCam p).length +
        (s7.length + ((segSupportedMessages p).length + (s9.length + 1))) := by
  cases hp : p.chunk_addressing_method with
  | none =>
      obtain ⟨fuel, q, hloop, hle⟩ := chain7 p s s9 hs9 s7 hs7 acc hldw hsm hcs
        (by rw [hcam, hp])
      refine ⟨fuel, q, ?_, ?_⟩
      · simpa [segCam, hp] using hloop
      · simp only [segCam, hp]
        simpa using hle
  | some v =>
      obtain ⟨fuel, q, hloop, hle⟩ := chain7 p s s9 hs9 s7 hs7
        { acc with chunk_addressing_method := some v } hldw hsm hcs
        (by simp [hp])
      refine ⟨fuel + 1, q, ?_, ?_⟩
      · have hsh : segCam p ++ (s7 ++ (segSupportedMessages p ++ (s9 ++ 255 :: s))) =
            6 :: (encode_chunk_addressing_method v ++ (s7 ++ (segSupportedMessages p ++ (s9 ++ 255 :: s)))) := by
          simp [segCam, hp]
        rw [hsh]
        exact decodeLoop_cons_next _ _ _ _ fuel _
          (decodeStep_field6 acc v _ hcam) hloop
      · simp only [segCam, hp, List.length_cons]
        omega

theorem chain5 (p : ProtocolOptions) (s s9 : Bytes) (hs9 : segChunkSize p = some s9)
    (s7 : Bytes) (hs7 : segLdw p = some s7)
    (acc : ProtocolOptions) (hlsa : acc.live_signature_algorithm = none)
    (hcam : acc.chunk_addressing_method = none)
    (hldw : acc.live_discard_window = none)
    (hsm : acc.supported_messages = none) (hcs : acc.chunk_size = none) :
    ∃ fuel q,
      decodeLoop fuel
        (segLsa p ++ (segCam p ++ (s7 ++ (segSupportedMessages p ++ (s9 ++ 255 :: s)))))
        acc = .ok (q, s) ∧
      fuel ≤ (segLsa p).length + ((segCam p).length +
        (s7.length + ((segSupportedMessages p).length + (s9.length + 1)))) := by
  cases hp : p.live_signature_algorithm with
  | none =>
      obtain ⟨fuel, q, hloop, hle⟩ := chain6 p s s9 hs9 s7 hs7 acc hcam hldw hsm hcs
      refine ⟨fuel, q, ?_, ?_⟩
      · simpa [segLsa, hp] using hloop
      · simp only [segLsa, hp]
        simpa using hle
  | some v =>
      obtain ⟨fuel, q, hloop, hle⟩ := chain6 p s s9 hs9 s7 hs7
        { acc with live_signature_algorithm := some v } hcam hldw hsm hcs
      refine ⟨fuel + 1, q, ?_, ?_⟩
      · have hsh : segLsa p ++ (segCam p ++ (s7 ++ (segSupportedMessages p ++ (s9 ++ 255 :: s)))) =
            5 :: (encode_live_signature_algorithm v ++
              (segCam p ++ (s7 ++ (segSupportedMessages p ++ (s9 ++ 255 :: s))))) := by
          simp [segLsa, hp]
        rw [hsh]
        exact decodeLoop_cons_next _ _ _ _ fuel _
          (decodeStep_field5 acc v _ hlsa) hloop
      · simp only [segLsa, hp, List.length_cons]
        omega

theorem chain4 (p : ProtocolOptions) (s s9 : Bytes) (hs9 : segChunkSize p = some s9)
    (s7 : Bytes) (hs7 : segLdw p = some s7)
    (acc : ProtocolOptions) (hmhtf : acc.merkle_hash_tree_function = none)
    (hlsa : acc.live_signature_algorithm = none)
    (hcam : acc.chunk_addressing_method = none)
    (hldw : acc.live_discard_window = none)
    (hsm : acc.supported_messages = none) (hcs : acc.chunk_size = none) :
    ∃ fuel q,
      decodeLoop fuel
        (segMhtf p ++ (segLsa p ++ (segCam p ++ (s7 ++
          (segSupportedMessages p ++ (s9 ++ 255 :: s)))))) acc = .ok (q, s) ∧
      fuel ≤ (segMhtf p).length + ((segLsa p).length + ((segCam p).length +
        (s7.length + ((segSupportedMessages p).length + (s9.length + 1))))) := by
  cases hp : p.merkle_hash_tree_function with
  | none =>
      obtain ⟨fuel, q, hloop, hle⟩ := chain5 p s s9 hs9 s7 hs7 acc hlsa hcam hldw hsm hcs
      refine ⟨fuel, q, ?_, ?_⟩
      · simpa [segMhtf, hp] using hloop
      · simp only [segMhtf, hp]
        simpa using hle
  | some v =>
      obtain ⟨fuel, q, hloop, hle⟩ := chain5 p s s9 hs9 s7 hs7
        { acc with merkle_hash_tree_function := some v } hlsa hcam hldw hsm hcs
      refine ⟨fuel + 1, q, ?_, ?_⟩
      · have hsh : segMhtf p ++ (segLsa p ++ (segCam p ++ (s7 ++
            (segSupportedMessages p ++ (s9 ++ 255 :: s))))) =
            4 :: (encode_merkle_hash_tree_function v ++ (segLsa p ++ (segCam p ++ (s7 ++
              (segSupportedMessages p ++ (s9 ++ 255 :: s)))))) := by
          simp [segMhtf, hp]
        rw [hsh]
        exact decodeLoop_cons_next _ _ _ _ fuel _
          (decodeStep_field4 acc v _ hmhtf) hloop
      · simp only [segMhtf, hp, List.length_cons]
        omega

theorem chain3 (p : ProtocolOptions) (s s9 : Bytes) (hs9 : segChunkSize p = some s9)
    (s7 : Bytes) (hs7 : segLdw p = some s7)
    (acc : ProtocolOptions) (hcipm : acc.content_integrity_protection_method = none)
    (hmhtf : acc.merkle_hash_tree_function = none)
    (hlsa : acc.live_signature_algorithm = none)
    (hcam : acc.chunk_addressing_method = none)
    (hldw : acc.live_discard_window = none)
    (hsm : acc.supported_messages = none) (hcs : acc.chunk_size = none) :
    ∃ fuel q,
      decodeLoop fuel
        (segCipm p ++ (segMhtf p ++ (segLsa p ++ (segCam p ++ (s7 ++
          (segSupportedMessages p ++ (s9 ++ 255 :: s))))))) acc = .ok (q, s) ∧
      fuel ≤ (segCipm p).length + ((segMhtf p).length + ((segLsa p).length +
        ((segCam p).length + (s7.length +
          ((segSupportedMessages p).length + (s9.length + 1)))))) := by
  cases hp : p.content_integrity_protection_method with
  | none =>
      obtain ⟨fuel, q, hloop, hle⟩ := chain4 p s s9 hs9 s7 hs7 acc hmhtf hlsa hcam hldw hsm hcs
      refine ⟨fuel, q, ?_, ?_⟩
      · simpa [segCipm, hp] using hloop
      · simp only [segCipm, hp]
        simpa using hle
  | some v =>
      obtain ⟨fuel, q, hloop, hle⟩ := chain4 p s s9 hs9 s7 hs7
        { acc with content_integrity_protection_method := some v } hmhtf hlsa hcam hldw hsm hcs
      refine ⟨fuel + 1, q, ?_, ?_⟩
      · have hsh : segCipm p ++ (segMhtf p ++ (segLsa p ++ (segCam p ++ (s7 ++
            (segSupportedMessages p ++ (s9 ++ 255 :: s)))))) =
            3 :: (encode_content_integrity_protection_method v ++ (segMhtf p ++ (segLsa p ++ (segCam p ++ (s7 ++
              (segSupportedMessages p ++ (s9 ++ 255 :: s))))))) := by
          simp [segCipm, hp]
        rw [hsh]
        exact decodeLoop_cons_next _ _ _ _ fuel _
          (decodeStep_field3 acc v _ hcipm) hloop
      · simp only [segCipm, hp, List.length_cons]
        omega

theorem chain2 (p : ProtocolOptions) (s s9 : Bytes) (hs9 : segChunkSize p = some s9)
    (s7 : Bytes) (hs7 : segLdw p = some s7)
    (s2 : Bytes) (hs2 : segSwarmId p = some s2)
    (acc : ProtocolOptions) (hsid : acc.swarm_identifier = none)
    (hcipm : acc.content_integrity_protection_method = none)
    (hmhtf : acc.merkle_hash_tree_function = none)
    (hlsa : acc.live_signature_algorithm = none)
    (hcam : acc.chunk_addressing_method = none)
    (hldw : acc.live_discard_window = none)
    (hsm : acc.supported_messages = none) (hcs : acc.chunk_size = none) :
    ∃ fuel q,
      decodeLoop fuel
        (s2 ++ (segCipm p ++ (segMhtf p ++ (segLsa p ++ (segCam p ++ (s7 ++
          (segSupportedMessages p ++ (s9 ++ 255 :: s)))))))) acc = .ok (q, s) ∧
      fuel ≤ s2.length + ((segCipm p).length + ((segMhtf p).length + ((segLsa p).length +
        ((segCam p).length + (s7.length +
          ((segSupportedMessages p).length + (s9.length + 1))))))) := by
  cases hp : p.swarm_identifier with
  | none =>
      simp only [segSwarmId, hp] at hs2
      cases hs2
      obtain ⟨fuel, q, hloop, hle⟩ :=
        chain3 p s s9 hs9 s7 hs7 acc hcipm hmhtf hlsa hcam hldw hsm hcs
      exact ⟨fuel, q, by simpa using hloop, by simpa using hle⟩
  | some sid =>
      simp only [segSwarmId, hp] at hs2
      rcases Option.map_eq_some.mp hs2 with ⟨enc, henc, hseq⟩
      subst hseq
      obtain ⟨fuel, q, hloop, hle⟩ := chain3 p s s9 hs9 s7 hs7
        { acc with swarm_identifier := some sid } hcipm hmhtf hlsa hcam hldw hsm hcs
      refine ⟨fuel + 1, q, ?_, ?_⟩
      · have hsh : (2 :: enc) ++ (segCipm p ++ (segMhtf p ++ (segLsa p ++ (segCam p ++ (s7 ++
            (segSupportedMessages p ++ (s9 ++ 255 :: s))))))) =
            2 :: (enc ++ (segCipm p ++ (segMhtf p ++ (segLsa p ++ (segCam p ++ (s7 ++
              (segSupportedMessages p ++ (s9 ++ 255 :: s)))))))) := rfl
        rw [hsh]
        exact decodeLoop_cons_next _ _ _ _ fuel _
          (decodeStep_field2 acc sid enc _ hsid henc) hloop
      · simp only [List.length_cons]
        omega

theorem chain1 (p : ProtocolOptions) (s s9 : Bytes) (hs9 : segChunkSize p = some s9)
    (s7 : Bytes) (hs7 : segLdw p = some s7)
    (s2 : Bytes) (hs2 : segSwarmId p = some s2)
    (acc : ProtocolOptions) (hmv : acc.minimum_version = none)
    (hsid : acc.swarm_identifier = none)
    (hcipm : acc.content_integrity_protection_method = none)
    (hmhtf : acc.merkle_hash_tree_function = none)
    (hlsa : acc.live_signature_algorithm = none)
    (hcam : acc.chunk_addressing_method = none)
    (hldw : acc.live_discard_window = none)
    (hsm : acc.supported_messages = none) (hcs : acc.chunk_size = none) :
    ∃ fuel q,
      decodeLoop fuel
        (segMinimumVersion p ++ (s2 ++ (segCipm p ++ (segMhtf p ++ (segLsa p ++
          (segCam p ++ (s7 ++ (segSupportedMessages p ++ (s9 ++ 255 :: s)))))))))
        acc = .ok (q, s) ∧
      fuel ≤ (segMinimumVersion p).length + (s2.length + ((segCipm p).length +
        ((segMhtf p).length + ((segLsa p).length + ((segCam p).length +
          (s7.length + ((segSupportedMessages p).length + (s9.length + 1)))))))) := by
  cases hp : p.minimum_version with
  | none =>
      obtain ⟨fuel, q, hloop, hle⟩ :=
        chain2 p s s9 hs9 s7 hs7 s2 hs2 acc hsid hcipm hmhtf hlsa hcam hldw hsm hcs
      refine ⟨fuel, q, ?_, ?_⟩
      · simpa [segMinimumVersion, hp] using hloop
      · simp only [segMinimumVersion, hp]
        simpa using hle
  | some v =>
      obtain ⟨fuel, q, hloop, hle⟩ := chain2 p s s9 hs9 s7 hs7 s2
        hs2 { acc with minimum_version := some v } hsid hcipm hmhtf hlsa hcam hldw hsm hcs
      refine ⟨fuel + 1, q, ?_, ?_⟩
      · have hsh : segMinimumVersion p ++ (s2 ++ (segCipm p ++ (segMhtf p ++ (segLsa p ++
            (segCam p ++ (s7 ++ (segSupportedMessages p ++ (s9 ++ 255 :: s)))))))) =
            1 :: (encode_minimum_version v ++ (s2 ++ (segCipm p ++ (segMhtf p ++ (segLsa p ++
              (segCam p ++ (s7 ++ (segSupportedMessages p ++ (s9 ++ 255 :: s))))))))) := by
          simp [segMinimumVersion, hp]
        rw [hsh]
        exact decodeLoop_cons_next _ _ _ _ fuel _
          (decodeStep_field1 acc v _ hmv) hloop
      · simp only [segMinimumVersion, hp, List.length_cons]
        omega

theorem chain0 (p : ProtocolOptions) (s s9 : Bytes) (hs9 : segChunkSize p = some s9)
    (s7 : Bytes) (hs7 : segLdw p = some s7)
    (s2 : Bytes) (hs2 : segSwarmId p = some s2) :
    ∃ fuel q,
      decodeLoop fuel
        (segVersion p ++ (segMinimumVersion p ++ (s2 ++ (segCipm p ++ (segMhtf p ++
          (segLsa p ++ (segCam p ++ (s7 ++ (segSupportedMessages p ++ (s9 ++ 255 :: s))))))))))
        {} = .ok (q, s) ∧
      fuel ≤ (segVersion p).length + ((segMinimumVersion p).length + (s2.length +
        ((segCipm p).length + ((segMhtf p).length + ((segLsa p).length +
          ((segCam p).length + (s7.length +
            ((segSupportedMessages p).length + (s9.length + 1))))))))) := by
  cases hp : p.version with
  | none =>
      obtain ⟨fuel, q, hloop, hle⟩ :=
        chain1 p s s9 hs9 s7 hs7 s2 hs2 {} rfl rfl rfl rfl rfl rfl rfl rfl rfl
      refine ⟨fuel, q, ?_, ?_⟩
      · simpa [segVersion, hp] using hloop
      · simp only [segVersion, hp]
        simpa using hle
  | some v =>
      obtain ⟨fuel, q, hloop, hle⟩ := chain1 p s s9 hs9 s7 hs7 s2 hs2
        { version := some v } rfl rfl rfl rfl rfl rfl rfl rfl rfl
      refine ⟨fuel + 1, q, ?_, ?_⟩
      · have hsh : segVersion p ++ (segMinimumVersion p ++ (s2 ++ (segCipm p ++ (segMhtf p ++
            (segLsa p ++ (segCam p ++ (s7 ++ (segSupportedMessages p ++ (s9 ++ 255 :: s))))))))) =
            0 :: (encode_version v ++ (segMinimumVersion p ++ (s2 ++ (segCipm p ++ (segMhtf p ++
              (segLsa p ++ (segCam p ++ (s7 ++ (segSupportedMessages p ++ (s9 ++ 255 :: s)))))))))) := by
          simp [segVersion, hp]
        rw [hsh]
        have hstep := decodeStep_field0 {} v
          (segMinimumVersion p ++ (s2 ++ (segCipm p ++ (segMhtf p ++ (segLsa p ++
            (segCam p ++ (s7 ++ (segSupportedMessages p ++ (s9 ++ 255 :: s))))))))) rfl
        exact decodeLoop_cons_next _ _ _ _ fuel _ hstep hloop
      · simp only [segVersion, hp, List.length_cons]
        omega

/-! ## Lemmas: association lists and the connector -/

section AList

variable {α : Type}

@[simp] theorem alookup_nil (k : Nat) : alookup ([] : List (Nat × α)) k = none := rfl

@[simp] theorem alookup_cons (kv : Nat × α) (l : List (Nat × α)) (k : Nat) :
    alookup (kv :: l) k = if kv.1 = k then some kv.2 else alookup l k := by
  by_cases h : kv.1 = k
  · simp [alookup, List.find?_cons, h]
  · simp [alookup, List.find?_cons, h]

@[simp] theorem alookup_aset_self (l : List (Nat × α)) (k : Nat) (v : α) :
    alookup (aset l k v) k = some v := by
  induction l with
  | nil => simp [aset]
  | cons kv rest ih =>
      by_cases h : kv.1 = k
      · simp [aset, h]
      · simp [aset, h, ih]

theorem alookup_aset_ne (l : List (Nat × α)) (k k' : Nat) (v : α) (h : k' ≠ k) :
    alookup (aset l k v) k' = alookup l k' := by
  have hne : ¬ k = k' := fun hk => h hk.symm
  induction l with
  | nil => simp [aset, hne]
  | cons kv rest ih =>
      by_cases hk : kv.1 = k
      · subst hk
        simp [aset, hne]
      · simp only [aset, if_neg hk, alookup_cons, ih]

theorem aset_eq_append (l : List (Nat × α)) (k : Nat) (v : α)
    (h : alookup l k = none) : aset l k v = l ++ [(k, v)] := by
  induction l with
  | nil => rfl
  | cons kv rest ih =>
      by_cases hk : kv.1 = k
      · simp [alookup_cons, hk] at h
      · simp only [alookup_cons, if_neg hk] at h
        simp [aset, hk, ih h]

theorem aerase_append (l : List (Nat × α)) (k : Nat) (v : α)
    (h : alookup l k = none) : aerase (l ++ [(k, v)]) k = l := by
  induction l with
  | nil => simp [aerase]
  | cons kv rest ih =>
      by_cases hk : kv.1 = k
      · simp [alookup_cons, hk] at h
      · simp only [alookup_cons, if_neg hk] at h
        simp [aerase, hk, ih h]

theorem alookup_mem (l : List (Nat × α)) (k : Nat) (v : α)
    (h : alookup l k = some v) : (k, v) ∈ l := by
  induction l with
  | nil => simp [alookup] at h
  | cons kv rest ih =>
      by_cases hk : kv.1 = k
      · simp only [alookup_cons, if_pos hk] at h
        obtain ⟨k1, v1⟩ := kv
        cases h
        cases hk
        exact List.mem_cons_self _ _
      · simp only [alookup_cons, if_neg hk] at h
        exact List.mem_cons_of_mem _ (ih h)

end AList

/-! ## Claim C2 (supported-messages bitmap round trip) -/

/-- Claim C2: the claimed round trip `decode_bitmap(encode_bitmap(S)) = S`
fails in the source: `bin(value)[2:]` drops leading zero bits, so a bitmap
byte whose most-significant bit is 0 is paired left-aligned against the
message-type group.  Encoding `{DATA}` produces the bitmap `40 00`, whose
first byte decodes as `1000000` (seven digits) paired from HANDSHAKE
onwards, yielding `{HANDSHAKE}` instead of `{DATA}`. -/
theorem supported_messages_roundtrip_bug :
    decode_supported_messages (encode_supported_messages {MessageType.DATA}) =
      .ok ({MessageType.HANDSHAKE}, []) ∧
    ({MessageType.HANDSHAKE} : Finset MessageType) ≠ {MessageType.DATA} := by
  constructor
  · decide
  · decide

/-! ## Claim C3 (supported-messages encoder trims trailing zero bytes) -/

/-- Claim C3: the encoder never trims trailing all-zero bytes: for the 14
declared message types it always emits a 2-byte bitmap with length byte 2.
Encoding `{HANDSHAKE}` yields `02 80 00`, not the claimed `01 80`. -/
theorem encode_supported_messages_no_trim :
    encode_supported_messages {MessageType.HANDSHAKE} = [2, 128, 0] ∧
    encode_supported_messages {MessageType.HANDSHAKE} ≠ [1, 128] := by
  constructor
  · decide
  · decide

/-! ## Claim C4 (RFC supported-messages example) -/

/-- Claim C4: decoding the supported-messages payload `02 D9 F0` yields
exactly the set of all message types except ACK, PEX_REQ, PEX_RESv4,
PEX_RESv6 and PEX_REScert, with nothing left over, and re-encoding that
set reproduces the original bytes. -/
theorem supported_messages_rfc_example :
    decode_supported_messages [0x02, 0xD9, 0xF0] =
      .ok (({MessageType.HANDSHAKE, MessageType.DATA, MessageType.HAVE,
        MessageType.INTEGRITY, MessageType.SIGNED_INTEGRITY, MessageType.REQUEST,
        MessageType.CANCEL, MessageType.CHOKE, MessageType.UNCHOKE} :
          Finset MessageType), []) ∧
    encode_supported_messages
      {MessageType.HANDSHAKE, MessageType.DATA, MessageType.HAVE,
        MessageType.INTEGRITY, MessageType.SIGNED_INTEGRITY, MessageType.REQUEST,
        MessageType.CANCEL, MessageType.CHOKE, MessageType.UNCHOKE} =
      [0x02, 0xD9, 0xF0] := by
  constructor
  · decide
  · decide

/-! ## Claim C5 (live discard window requires a prior chunk addressing method) -/

/-- Claim C5: whenever the decoder meets option code 7 while the record
built so far has no chunk-addressing method (and no duplicate to report),
it fails with the OrderViolation kind; in particular any record starting
with code 7 decodes to that error. -/
theorem decode_ldw_requires_cam :
    (∀ fuel data opts, data.head? = some 7 →
      opts.live_discard_window = none →
      opts.chunk_addressing_method = none →
      decodeLoop (fuel + 1) data opts = .error .orderViolation) ∧
    (∀ rest : Bytes, poDecode (7 :: rest) = .error .orderViolation) := by
  have key : ∀ fuel data opts, data.head? = some 7 →
      opts.live_discard_window = none →
      opts.chunk_addressing_method = none →
      decodeLoop (fuel + 1) data opts = Except.error Err.orderViolation := by
    intro fuel data opts hhead hldw hcam
    match data, hhead with
    | 7 :: rest, _ =>
      rw [decodeLoop]
      have hstep : decodeStep (7 :: rest) opts = .error .orderViolation := by
        simp [decodeStep, hldw, decode_live_discard_window, hcam]
      rw [hstep]
  refine ⟨key, fun rest => ?_⟩
  exact key _ (7 :: rest) {} rfl rfl rfl

/-- Witness for C5: the loop at the single-byte record `07`, and the
top-level decoder on the same record, both report OrderViolation. -/
theorem decode_ldw_requires_cam_witness :
    decodeLoop 1 [7] {} = .error .orderViolation ∧
    poDecode [7] = .error .orderViolation :=
  ⟨decode_ldw_requires_cam.1 0 [7] {} rfl rfl rfl,
   decode_ldw_requires_cam.2 []⟩

/-! ## Claim C6 (encoding a live discard window without a chunk addressing
method silently omits it) -/

/-- Claim C6: when `live_discard_window` is set but
`chunk_addressing_method` is not, the encoder contributes no bytes for
option 7 and the encoding equals that of the same record with the window
cleared. -/
theorem encode_ldw_without_cam_omitted (p : ProtocolOptions) (w : Nat)
    (hcam : p.chunk_addressing_method = none)
    (hldw : p.live_discard_window = some w) :
    segLdw p = some [] ∧
    poEncode p = poEncode { p with live_discard_window := none } := by
  have hseg : segLdw p = some [] := by
    simp [segLdw, hldw, encode_live_discard_window, hcam]
  refine ⟨hseg, ?_⟩
  have hseg' : segLdw { p with live_discard_window := none } = some [] := rfl
  simp only [poEncode, hseg, hseg']
  rfl

/-- Witness for C6: a record with only a live-discard window set encodes
exactly like the record with the window cleared. -/
theorem encode_ldw_without_cam_omitted_witness :
    segLdw { live_discard_window := some 42 } = some [] ∧
    poEncode { live_discard_window := some 42 } =
      poEncode { ({ live_discard_window := some 42 } : ProtocolOptions) with
        live_discard_window := none } :=
  encode_ldw_without_cam_omitted { live_discard_window := some 42 } 42 rfl rfl

/-! ## Claim C10 (constructor-time validation of ProtocolOptions) -/

/-- Claim C10: `ProtocolOptions.__new__` validates every non-`None`
argument at construction time.  Every successful construction stores, for
each enum-annotated field, exactly the coercion of its raw argument (so
`None` stays `None`, an assigned value is stored as the enum member, and
no out-of-domain enum value can reach the encoder), and an out-of-domain
version such as `version=2` raises `TypeError` whatever the other
arguments are. -/
theorem protocol_options_mk_validates :
    (∀ r p, ProtocolOptions.mk? r = .ok p →
      coerceEnum Version.ofNat? r.version = .ok p.version ∧
      coerceEnum Version.ofNat? r.minimum_version = .ok p.minimum_version ∧
      coerceEnum CIPM.ofNat? r.content_integrity_protection_method =
        .ok p.content_integrity_protection_method ∧
      coerceEnum MHTF.ofNat? r.merkle_hash_tree_function =
        .ok p.merkle_hash_tree_function ∧
      coerceEnum LSA.ofNat? r.live_signature_algorithm =
        .ok p.live_signature_algorithm ∧
      coerceEnum CAM.ofNat? r.chunk_addressing_method =
        .ok p.chunk_addressing_method ∧
      p.swarm_identifier = r.swarm_identifier ∧
      p.live_discard_window = r.live_discard_window ∧
      p.supported_messages = r.supported_messages ∧
      p.chunk_size = r.chunk_size) ∧
    (∀ r n, r.version = some n → Version.ofNat? n = none →
      ProtocolOptions.mk? r = .error .typeError) := by
  constructor
  · intro r p h
    simp only [ProtocolOptions.mk?, bind, Except.bind] at h
    cases hv : coerceEnum Version.ofNat? r.version with
    | error e => rw [hv] at h; simp at h
    | ok v =>
      rw [hv] at h
      cases hmv : coerceEnum Version.ofNat? r.minimum_version with
      | error e => rw [hmv] at h; simp at h
      | ok mv =>
        rw [hmv] at h
        cases hcipm : coerceEnum CIPM.ofNat? r.content_integrity_protection_method with
        | error e => rw [hcipm] at h; simp at h
        | ok cipm =>
          rw [hcipm] at h
          cases hmhtf : coerceEnum MHTF.ofNat? r.merkle_hash_tree_function with
          | error e => rw [hmhtf] at h; simp at h
          | ok mhtf =>
            rw [hmhtf] at h
            cases hlsa : coerceEnum LSA.ofNat? r.live_signature_algorithm with
            | error e => rw [hlsa] at h; simp at h
            | ok lsa =>
              rw [hlsa] at h
              cases hcam : coerceEnum CAM.ofNat? r.chunk_addressing_method with
              | error e => rw [hcam] at h; simp at h
              | ok cam =>
                rw [hcam] at h
                simp only [Except.ok.injEq] at h
                subst h
                exact ⟨by simpa using hv, by simpa using hmv, by simpa using hcipm,
                  by simpa using hmhtf, by simpa using hlsa, by simpa using hcam,
                  rfl, rfl, rfl, rfl⟩
  · intro r n hv hnone
    simp [ProtocolOptions.mk?, coerceEnum, hv, hnone, bind, Except.bind]

/-- Witness for C10: `version=1` is stored as the enum member, and
`version=2` raises `TypeError`. -/
theorem protocol_options_mk_validates_witness :
    coerceEnum Version.ofNat? (RawOptions.version { version := some 1 }) =
      .ok (ProtocolOptions.version { version := some Version.rfc7574 }) ∧
    ProtocolOptions.mk? { version := some 2 } = .error .typeError :=
  ⟨(protocol_options_mk_validates.1 { version := some 1 }
      { version := some Version.rfc7574 } rfl).1,
   protocol_options_mk_validates.2 { version := some 2 } 2 rfl rfl⟩

/-! ## Claim C1 (datagram round trip under the default handler tables) -/

/-- Claim C1 counterexample: under the library's default (empty)
message-handler tables, a datagram carrying a HANDSHAKE message cannot
even be encoded — `encode_message` fails on the missing handler entry — so
`decode(encode(d)) = d` fails for this valid datagram. -/
theorem datagram_roundtrip_default_fails :
    datagramEncode ⟨⟨[0, 0, 0, 1]⟩, [Message.handshake ⟨⟨[0, 0, 0, 0]⟩, {}⟩]⟩ =
      .error .unknownMessageType ∧
    (datagramEncode ⟨⟨[0, 0, 0, 1]⟩, [Message.handshake ⟨⟨[0, 0, 0, 0]⟩, {}⟩]⟩).bind
        datagramDecode ≠
      .ok ⟨⟨[0, 0, 0, 1]⟩, [Message.handshake ⟨⟨[0, 0, 0, 0]⟩, {}⟩]⟩ := by
  constructor
  · rfl
  · decide

/-- Claim C1 amended: with the default empty handler tables, the datagram
round trip `decode(encode(d)) = d` holds exactly for the valid datagrams
whose message sequence is empty; any valid datagram with at least one
message fails to encode with the UnknownMessageType kind. -/
theorem datagram_roundtrip_empty_messages :
    (∀ cid : ChannelID, cid.data.length = DWORD →
      (datagramEncode ⟨cid, []⟩).bind datagramDecode = .ok ⟨cid, []⟩) ∧
    (∀ d : Datagram, d.channel_id.data.length = DWORD → d.messages ≠ [] →
      datagramEncode d = .error .unknownMessageType) := by
  constructor
  · intro cid h
    have henc : datagramEncode ⟨cid, []⟩ = .ok cid.data := by
      simp [datagramEncode, cidEncode, ChannelID.new?, h, messagesEncode,
        bind, Except.bind, Except.map]
    rw [henc]
    show datagramDecode cid.data = .ok ⟨cid, []⟩
    have htake : cid.data.take DWORD = cid.data :=
      List.take_of_length_le (by rw [h])
    have hdrop : cid.data.drop DWORD = [] :=
      List.drop_eq_nil_of_le (by rw [h])
    simp [datagramDecode, cidDecode, htake, hdrop, ChannelID.new?, h,
      messagesDecode, messagesDecodeLoop, bind, Except.bind]
  · intro d h hne
    match d, hne with
    | ⟨cid, m :: rest⟩, _ =>
      simp [datagramEncode, cidEncode, ChannelID.new?, h, messagesEncode,
        encode_message, encode_message_handlers, bind, Except.bind, Except.map]

/-- Witness for C1 (amended): the keepalive datagram round-trips, and the
concrete handshake-carrying datagram fails to encode. -/
theorem datagram_roundtrip_empty_messages_witness :
    (datagramEncode ⟨⟨[0, 0, 0, 2]⟩, []⟩).bind datagramDecode =
      .ok ⟨⟨[0, 0, 0, 2]⟩, []⟩ ∧
    datagramEncode ⟨⟨[0, 0, 0, 2]⟩, [Message.handshake ⟨⟨[0, 0, 0, 0]⟩, {}⟩]⟩ =
      .error .unknownMessageType :=
  ⟨datagram_roundtrip_empty_messages.1 ⟨[0, 0, 0, 2]⟩ rfl,
   datagram_roundtrip_empty_messages.2
     ⟨⟨[0, 0, 0, 2]⟩, [Message.handshake ⟨⟨[0, 0, 0, 0]⟩, {}⟩]⟩ rfl (by simp)⟩

/-! ## Claim C7 (LIFO reuse of released endpoints) -/

/-- Claim C7: on an open connector, releasing a connection under key `k`
and then connecting on `k` hands back a connection wrapping the endpoint
just released (the pool stack is LIFO: the release is pushed at the end
and `pop` takes the end); when the pool stack for `k` thereby empties the
entry is erased.  When the pool has no entry for `k`, `connect` mints a
fresh attached endpoint (advancing the endpoint counter) and leaves no
pool entry behind. -/
theorem connect_lifo_reuse :
    (∀ s cid k e, s.closed = false → connKey s cid = some k →
      connProtocol s cid = some e →
      connProtocol (connect (release_connection s cid) k).2
          (connect (release_connection s cid) k).1 = some e ∧
      (alookup s.pool k = none →
        alookup (connect (release_connection s cid) k).2.pool k = none)) ∧
    (∀ s k, alookup s.pool k = none →
      connProtocol (connect s k).2 (connect s k).1 = some s.nextEndpoint ∧
      attachedIn (connect s k).2.endpoints s.nextEndpoint = true ∧
      (connect s k).2.nextEndpoint = s.nextEndpoint + 1 ∧
      alookup (connect s k).2.pool k = none) := by
  constructor
  · intro s cid k e hclosed hkey hproto
    rcases Option.map_eq_some.mp hkey with ⟨c, hc, hck⟩
    rw [connProtocol, hc, Option.some_bind] at hproto
    have hs1 : release_connection s cid = { s with
        acquired := removeAcquired s.acquired c.key cid,
        pool := aset s.pool c.key (((alookup s.pool c.key).getD []) ++ [c.protocol]) } := by
      rw [release_connection, if_neg (by simp [hclosed]), hc]
    subst hck
    rw [hs1]
    constructor
    · rw [connect, getConnection]
      simp only [alookup_aset_self, List.getLast?_concat, List.dropLast_concat]
      simp [connect, connProtocol, addAcquired, hproto]
    · intro hpool
      rw [connect, getConnection]
      simp only [alookup_aset_self, List.getLast?_concat, List.dropLast_concat]
      simp only [hpool, Option.getD_none, List.isEmpty_nil, if_pos, List.nil_append]
      rw [aset_eq_append s.pool c.key [c.protocol] hpool]
      simp [addAcquired, aerase_append s.pool c.key [c.protocol] hpool, hpool]
  · intro s k h
    rw [connect, getConnection, h]
    refine ⟨?_, ?_, rfl, ?_⟩
    · simp [connProtocol, addAcquired]
    · simp [attachedIn, addAcquired]
    · simpa [addAcquired] using h

/-- Witness for C7: on a concrete one-connection state, releasing and
reconnecting returns endpoint 10, and connecting on a key with no pool
entry mints the fresh endpoint 11. -/
theorem connect_lifo_reuse_witness :
    connProtocol
        (connect (release_connection
          { closed := false, loopClosed := false, pool := [],
            acquired := [(5, [0])], conns := [(0, ⟨5, some 10⟩)],
            endpoints := [(10, true)], nextEndpoint := 11, nextConn := 1 } 0) 5).2
        (connect (release_connection
          { closed := false, loopClosed := false, pool := [],
            acquired := [(5, [0])], conns := [(0, ⟨5, some 10⟩)],
            endpoints := [(10, true)], nextEndpoint := 11, nextConn := 1 } 0) 5).1 =
      some 10 ∧
    connProtocol
        (connect
          { closed := false, loopClosed := false, pool := [],
            acquired := [], conns := [], endpoints := [],
            nextEndpoint := 11, nextConn := 0 } 7).2
        (connect
          { closed := false, loopClosed := false, pool := [],
            acquired := [], conns := [], endpoints := [],
            nextEndpoint := 11, nextConn := 0 } 7).1 = some 11 :=
  ⟨(connect_lifo_reuse.1
      { closed := false, loopClosed := false, pool := [],
        acquired := [(5, [0])], conns := [(0, ⟨5, some 10⟩)],
        endpoints := [(10, true)], nextEndpoint := 11, nextConn := 1 }
      0 5 10 rfl rfl rfl).1,
   (connect_lifo_reuse.2
      { closed := false, loopClosed := false, pool := [],
        acquired := [], conns := [], endpoints := [],
        nextEndpoint := 11, nextConn := 0 } 7 rfl).1⟩

/-! ## Lemmas: connection closing is monotone -/

theorem close_connection_conns (t : ConnectorState) (y : Nat) :
    (close_connection t y).conns = t.conns := by
  rw [close_connection]
  by_cases h : t.closed = true
  · rw [if_pos h]
  · rw [if_neg h]
    cases hc : alookup t.conns y with
    | none => simp
    | some c => cases hp : c.protocol <;> simp [hp]

theorem attachedIn_aset_false (es : List (Nat × Bool)) (e ex : Nat)
    (h : attachedIn es ex = false) : attachedIn (aset es e false) ex = false := by
  by_cases hx : ex = e
  · subst hx
    simp [attachedIn]
  · rw [attachedIn, alookup_aset_ne es e ex false hx]
    exact h

theorem connClosed_close_connection (t : ConnectorState) (x y : Nat)
    (h : connClosed t x = true) : connClosed (close_connection t y) x = true := by
  rw [close_connection]
  by_cases hcl : t.closed = true
  · rw [if_pos hcl]
    exact h
  · rw [if_neg hcl]
    cases hc : alookup t.conns y with
    | none => simpa using h
    | some c =>
        cases hp : c.protocol with
        | none => simpa [hp] using h
        | some e =>
            simp only [connClosed] at h
            cases hcx : alookup t.conns x with
            | none => simp [hp, connClosed, hcx]
            | some cx =>
                cases hpx : cx.protocol with
                | none => simp [hp, connClosed, hcx, hpx]
                | some ex =>
                    simp only [hcx, hpx, Bool.not_eq_true'] at h
                    simp [hp, connClosed, hcx, hpx, Bool.not_eq_true',
                      attachedIn_aset_false t.endpoints e ex h]

theorem connClosed_connectionClose_self (t : ConnectorState) (x : Nat) :
    connClosed (connectionClose t x) x = true := by
  rw [connectionClose]
  by_cases h : connClosed t x = true
  · rw [if_pos h]
    exact h
  · rw [if_neg h]
    have hcc := close_connection_conns t x
    cases hc : alookup t.conns x with
    | none => exact absurd (by simp [connClosed, hc]) h
    | some c =>
        simp only [close_connection_conns, hc]
        simp [connClosed, hcc]

theorem connClosed_connectionClose_mono (t : ConnectorState) (x y : Nat)
    (h : connClosed t x = true) : connClosed (connectionClose t y) x = true := by
  rw [connectionClose]
  by_cases hy : connClosed t y = true
  · rw [if_pos hy]
    exact h
  · rw [if_neg hy]
    have hcc := close_connection_conns t y
    have h1 : connClosed (close_connection t y) x = true :=
      connClosed_close_connection t x y h
    cases hc : alookup t.conns y with
    | none =>
        simp only [close_connection_conns, hc]
        simpa using h1
    | some c =>
        simp only [close_connection_conns, hc]
        by_cases hxy : x = y
        · subst hxy
          simp [connClosed, hcc]
        · simp only [connClosed] at h1 ⊢
          simp only [hcc] at h1 ⊢
          rw [alookup_aset_ne t.conns y x _ hxy]
          exact h1

theorem connClosed_foldl_connectionClose (l : List Nat) :
    ∀ t x, connClosed t x = true →
      connClosed (l.foldl connectionClose t) x = true := by
  induction l with
  | nil => intro t x h; exact h
  | cons y rest ih =>
      intro t x h
      exact ih _ x (connClosed_connectionClose_mono t x y h)

theorem connClosed_foldl_mem (l : List Nat) :
    ∀ t x, x ∈ l → connClosed (l.foldl connectionClose t) x = true := by
  induction l with
  | nil =>
      intro t x h
      cases h
  | cons y rest ih =>
      intro t x h
      rcases List.mem_cons.mp h with rfl | hmem
      · exact connClosed_foldl_connectionClose rest _ x
          (connClosed_connectionClose_self t x)
      · exact ih _ x hmem

theorem mem_foldl_append (l : List (Nat × List Nat)) (cid : Nat) (acc : List Nat)
    (h : cid ∈ acc ∨ ∃ kv, kv ∈ l ∧ cid ∈ kv.2) :
    cid ∈ l.foldl (fun acc kv => acc ++ kv.2) acc := by
  induction l generalizing acc with
  | nil =>
      rcases h with h | ⟨kv, hkv, _⟩
      · simpa using h
      · exact absurd hkv (List.not_mem_nil kv)
  | cons kv rest ih =>
      rcases h with h | ⟨kv', hkv', hcid⟩
      · exact ih _ (Or.inl (List.mem_append_left _ h))
      · rcases List.mem_cons.mp hkv' with rfl | hmem
        · exact ih _ (Or.inl (List.mem_append_right _ hcid))
        · exact ih _ (Or.inr ⟨kv', hmem, hcid⟩)

/-! ## Claim C8 (Connector.close is idempotent and closes what it reached) -/

/-- Claim C8 counterexample: when the connector's event loop is already
closed, `close()` still clears the maps and marks the connector closed
(the `return` inside the `try` runs the `finally`), but it never reaches
the acquired connections — so the claim that every previously acquired
connection reports `closed = true` after the first `close()` is false on
this state: connection 0 was acquired yet still reports open. -/
theorem connector_close_loop_closed_leak :
    alookup
        (ConnectorState.acquired
          { closed := false, loopClosed := true, pool := [],
            acquired := [(5, [0])], conns := [(0, ⟨5, some 10⟩)],
            endpoints := [(10, true)], nextEndpoint := 11, nextConn := 1 }) 5 =
      some [0] ∧
    connClosed
        (connectorClose
          { closed := false, loopClosed := true, pool := [],
            acquired := [(5, [0])], conns := [(0, ⟨5, some 10⟩)],
            endpoints := [(10, true)], nextEndpoint := 11, nextConn := 1 }) 0 =
      false := by
  constructor
  · decide
  · decide

/-- Claim C8 amended: `close()` is idempotent, after a first `close()` on
an open connector both maps are empty, and — provided the event loop is
not already closed — every connection acquired before the call reports
`closed = true` afterwards (when the loop is closed the maps are still
cleared and the connector marked closed, but endpoints and connections
are left untouched). -/
theorem connector_close_idempotent (s : ConnectorState) :
    connectorClose (connectorClose s) = connectorClose s ∧
    (s.closed = false →
      (connectorClose s).pool = [] ∧ (connectorClose s).acquired = []) ∧
    (s.closed = false → s.loopClosed = false →
      ∀ k cids cid, alookup s.acquired k = some cids → cid ∈ cids →
        connClosed (connectorClose s) cid = true) := by
  have hclosed : (connectorClose s).closed = true := by
    rw [connectorClose]
    by_cases h : s.closed = true
    · rw [if_pos h]
      exact h
    · rw [if_neg h]
      by_cases h2 : s.loopClosed = true
      · rw [if_pos h2]
      · rw [if_neg h2]
  refine ⟨?_, ?_, ?_⟩
  · conv_lhs => rw [connectorClose]
    rw [if_pos hclosed]
  · intro h
    rw [connectorClose, if_neg (by simp [h])]
    by_cases h2 : s.loopClosed = true
    · rw [if_pos h2]
      exact ⟨rfl, rfl⟩
    · rw [if_neg h2]
      exact ⟨rfl, rfl⟩
  · intro h hl k cids cid hk hc
    rw [connectorClose, if_neg (by simp [h]), if_neg (by simp [hl])]
    have hmem : cid ∈ s.acquired.foldl (fun acc kv => acc ++ kv.2) [] :=
      mem_foldl_append s.acquired cid []
        (Or.inr ⟨(k, cids), alookup_mem s.acquired k cids hk, hc⟩)
    exact connClosed_foldl_mem _ _ cid hmem

/-- Witness for C8 (amended): on a concrete open connector with one
acquired attached connection, after `close()` the connection reports
closed. -/
theorem connector_close_idempotent_witness :
    connClosed
        (connectorClose
          { closed := false, loopClosed := false, pool := [],
            acquired := [(5, [0])], conns := [(0, ⟨5, some 10⟩)],
            endpoints := [(10, true)], nextEndpoint := 11, nextConn := 1 }) 0 =
      true :=
  (connector_close_idempotent
      { closed := false, loopClosed := false, pool := [],
        acquired := [(5, [0])], conns := [(0, ⟨5, some 10⟩)],
        endpoints := [(10, true)], nextEndpoint := 11, nextConn := 1 }).2.2
    rfl rfl 5 [0] 0 rfl (by decide)

/-! ## Claim C9 (decoding an encoded record consumes exactly the record) -/

/-- Claim C9: for every record that encodes successfully and every byte
suffix `s`, the decoder consumes the encoded record exactly through its
`0xFF` terminator and returns `s`, unchanged, as the remaining data. -/
theorem decode_consumes_encoded_record (p : ProtocolOptions) (bs s : Bytes)
    (h : poEncode p = some bs) :
    ∃ q, poDecode (bs ++ s) = .ok (q, s) := by
  rw [poEncode] at h
  cases h2 : segSwarmId p with
  | none =>
      rw [h2] at h
      simp at h
  | some s2 =>
    rw [h2] at h
    cases h7 : segLdw p with
    | none =>
        rw [h7] at h
        simp at h
    | some s7 =>
      rw [h7] at h
      cases h9 : segChunkSize p with
      | none =>
          rw [h9] at h
          simp at h
      | some s9 =>
        rw [h9] at h
        simp only [Option.bind_eq_bind, Option.some_bind, Option.some.injEq] at h
        obtain ⟨fuel, q, hloop, hle⟩ := chain0 p s s9 h9 s7 h7 s2 h2
        refine ⟨q, ?_⟩
        have hdata : bs ++ s = segVersion p ++ (segMinimumVersion p ++ (s2 ++
            (segCipm p ++ (segMhtf p ++ (segLsa p ++ (segCam p ++ (s7 ++
              (segSupportedMessages p ++ (s9 ++ 255 :: s))))))))) := by
          rw [← h]
          simp [List.append_assoc]
        rw [poDecode, hdata]
        apply decodeLoop_fuel_mono fuel _ _ _ _ hloop
        simp only [List.length_append, List.length_cons]
        omega

/-- Witness for C9: a concrete record (version, chunk addressing method
and live discard window set) encodes to `00 01 06 02 07 00 00 00 05 FF`;
decoding that with a trailing byte `09` returns `[09]` untouched. -/
theorem decode_consumes_encoded_record_witness :
    ∃ q, poDecode ([0, 1, 6, 2, 7, 0, 0, 0, 5, 255] ++ [9]) = .ok (q, [9]) :=
  decode_consumes_encoded_record
    { version := some .rfc7574, chunk_addressing_method := some .chunks32,
      live_discard_window := some 5 }
    [0, 1, 6, 2, 7, 0, 0, 0, 5, 255] [9] rfl

end Aioppspp
